import Mathlib

/-!
Verification of the asgard repository: a shallow embedding of the FQL
(named SAQL in the source) expression compiler (`asgard/expression.py`)
and of the data-access facade (`asgard/table_manager.py`), together with
theorems settling the frozen claims about them.

The embedding follows the source files; machine integers are modelled as
`Int`/`Nat` (the language of the source has arbitrary-precision integers),
floating-point literals are kept as their source text (no claim compares
float values), and fallible code returns `Except`.
-/

set_option maxRecDepth 10000

namespace Asgard

/-! ## Tokens

The source parser is built from pyparsing combinators
(`_define_parser` in `expression.py`).  The combinators first recognise
tokens (integers, floats, quoted strings, identifiers, keywords,
variables, punctuation), skipping whitespace between them; we embed that
as an explicit tokenizer over the character list. -/

inductive Tok where
  | int (n : Nat)
  | float (s : String)
  | str (s : String)
  | ident (s : String)
  | kw (s : String)
  | var (s : String)
  | sym (s : String)
deriving DecidableEq, Repr

/-- Keywords of the language: `Keyword(...)` combinators in the source. -/
def keywords : List String :=
  ["true", "false", "null", "and", "or", "not", "in", "like", "ilike"]

def isIdentStart (c : Char) : Bool := c.isAlpha || c = '_'

def isIdentChar (c : Char) : Bool := c.isAlpha || c.isDigit || c = '_'

def isWs (c : Char) : Bool := c = ' ' || c = '\t' || c = '\n' || c = '\r'

/-- Longest prefix satisfying `p`, with the rest of the input. -/
def spanP (p : Char → Bool) : List Char → List Char × List Char
  | [] => ([], [])
  | c :: cs =>
    if p c then
      let r := spanP p cs
      (c :: r.1, r.2)
    else ([], c :: cs)

theorem spanP_snd_length (p : Char → Bool) :
    ∀ l : List Char, (spanP p l).2.length ≤ l.length := by
  intro l
  induction l with
  | nil => simp [spanP]
  | cons c cs ih =>
    by_cases h : p c = true
    · simp [spanP, h]
      omega
    · simp [spanP, h]

def natOfDigits (l : List Char) : Nat :=
  l.foldl (fun a c => a * 10 + (c.toNat - 48)) 0

/-- Read a quoted string body given the opening quote character.
Standard backslash escapes are decoded (`ast.literal_eval` in the
source); an unknown escape keeps both characters.  Returns the decoded
string and the input after the closing quote. -/
def readQuoted (q : Char) : List Char → Option (List Char × List Char)
  | [] => none
  | c :: cs =>
    if c = q then some ([], cs)
    else if c = '\\' then
      match cs with
      | [] => none
      | e :: cs2 =>
        let dec : List Char :=
          if e = '\\' then ['\\']
          else if e = '\'' then ['\'']
          else if e = '"' then ['"']
          else if e = 'n' then ['\n']
          else if e = 't' then ['\t']
          else ['\\', e]
        match readQuoted q cs2 with
        | some (s, rest) => some (dec ++ s, rest)
        | none => none
    else
      match readQuoted q cs with
      | some (s, rest) => some (c :: s, rest)
      | none => none

/-- Parse errors: pyparsing raises `ParseException`; we keep a message. -/
inductive PErr where
  | parseError (msg : String)
deriving DecidableEq, Repr

/-- One step of the tokenizer: the next token (or none for end of input)
and the remaining characters.  Each step consumes at least one character;
the driver below recurses on a fuel bounded by the input length. -/
def nextTok : List Char → Except PErr (Option (Tok × List Char))
  | [] => .ok none
  | c :: cs =>
    if isWs c then
      -- whitespace is skipped between tokens (pyparsing default)
      nextTok cs
    else if c.isDigit then
      let r := spanP Char.isDigit cs
      let ds := c :: r.1
      match r.2 with
      | '.' :: cs2 =>
        -- Combine(Word(nums) + "." + Optional(Word(nums))): float literal,
        -- the dot must be adjacent to the digits
        let rf := spanP Char.isDigit cs2
        .ok (some (.float (String.mk (ds ++ '.' :: rf.1)), rf.2))
      | _ => .ok (some (.int (natOfDigits ds), r.2))
    else if isIdentStart c then
      let r := spanP isIdentChar cs
      let s := String.mk (c :: r.1)
      .ok (some (if s ∈ keywords then .kw s else .ident s, r.2))
    else if c = ':' then
      -- Combine(":" + Word(...)): no space between colon and name
      match cs with
      | d :: _ =>
        if isIdentStart d then
          let r := spanP isIdentChar cs
          .ok (some (.var (String.mk r.1), r.2))
        else .error (.parseError "expected variable name")
      | [] => .error (.parseError "expected variable name")
    else if c = '\'' || c = '"' then
      match readQuoted c cs with
      | some (s, rest) => .ok (some (.str (String.mk s), rest))
      | none => .error (.parseError "unterminated string")
    else if c = '=' then
      match cs with
      | '=' :: cs2 => .ok (some (.sym "==", cs2))
      | _ => .error (.parseError "expected ==")
    else if c = '!' then
      match cs with
      | '=' :: cs2 => .ok (some (.sym "!=", cs2))
      | _ => .error (.parseError "expected !=")
    else if c = '<' then
      match cs with
      | '=' :: cs2 => .ok (some (.sym "<=", cs2))
      | _ => .ok (some (.sym "<", cs))
    else if c = '>' then
      match cs with
      | '=' :: cs2 => .ok (some (.sym ">=", cs2))
      | _ => .ok (some (.sym ">", cs))
    else if c ∈ ['+', '-', '*', '/', '%', '(', ')', '[', ']', ',', '.'] then
      .ok (some (.sym (String.mk [c]), cs))
    else .error (.parseError "unexpected character")

/-- Tokenizer driver.  `fuel` only serves termination; `tokenize` supplies
enough fuel for any input since every step consumes a character. -/
def tokenizeAux (fuel : Nat) (l : List Char) : Except PErr (List Tok) :=
  match fuel with
  | 0 => .error (.parseError "tokenizer fuel exhausted")
  | fuel + 1 =>
    match nextTok l with
    | .error e => .error e
    | .ok none => .ok []
    | .ok (some (t, rest)) =>
      match tokenizeAux fuel rest with
      | .ok ts => .ok (t :: ts)
      | .error e => .error e

def tokenize (s : String) : Except PErr (List Tok) :=
  tokenizeAux (s.data.length + 1) s.data

/-! ## AST

The source builds tuples `('literal', v)`, `('identifier', "a.b")`,
`('variable', name)`, `('list', [...])`, `('op1', op, x)`,
`('op2', op, x, y)`.  We embed them as a tagged sum.  As in the source,
an identifier stores the dot-joined path (`".".join(x)`); `_none_val`
(the parse of `null`) is the `Lit.null` variant.  Float literals keep
their source text: no claim compares float values. -/

inductive Lit where
  | bool (b : Bool)
  | int (n : Nat)
  | float (s : String)
  | str (s : String)
  | null
deriving DecidableEq, Repr

inductive Ast where
  | literal (l : Lit)
  | identifier (name : String)
  | var (name : String)
  | list (items : List Ast)
  | op1 (op : String) (a : Ast)
  | op2 (op : String) (a b : Ast)
deriving Repr

/-- Dotted identifier paths: `delimitedList(identifier_part, ".")`,
joined with dots by the parse action. -/
def parseDotted (acc : String) : List Tok → String × List Tok
  | .sym "." :: .ident s :: rest => parseDotted (acc ++ "." ++ s) rest
  | ts => (acc, ts)

/-- Binary operator symbols by precedence level, tightest first, as
listed in `operatorPrecedence` in `_define_parser`: level 3 `* / %`,
level 4 `+ -`, level 5 `<= >= < >`, level 6 `== != in like ilike`,
level 7 `and`, level 8 `or`. -/
def levelSyms : Nat → List String
  | 3 => ["*", "/", "%"]
  | 4 => ["+", "-"]
  | 5 => ["<=", ">=", "<", ">"]
  | 6 => ["==", "!="]
  | _ => []

def levelKws : Nat → List String
  | 6 => ["in", "like", "ilike"]
  | 7 => ["and"]
  | 8 => ["or"]
  | _ => []

/-- The next token when it is a binary operator of the given level. -/
def levelOp (lvl : Nat) : List Tok → Option (String × List Tok)
  | .sym s :: rest => if s ∈ levelSyms lvl then some (s, rest) else none
  | .kw s :: rest => if s ∈ levelKws lvl then some (s, rest) else none
  | _ => none

/-! The parser: precedence climbing with the exact level structure of
`operatorPrecedence(rvalue, [...])` in the source.  Level 0 is the
primary (`rvalue` or a parenthesized expression), level 1 the unary
`+`/`-` (right associative), level 2 the unary `not`, levels 3-8 the
left-associative binary levels.  `fuel` only serves termination; the
top-level entry supplies enough for any token list. -/

mutual

def parseLvl (fuel : Nat) (lvl : Nat) (ts : List Tok) : Option (Ast × List Tok) :=
  match fuel with
  | 0 => none
  | fuel + 1 =>
    if lvl = 0 then
      match ts with
      | .int n :: rest => some (.literal (.int n), rest)
      | .float s :: rest => some (.literal (.float s), rest)
      | .str s :: rest => some (.literal (.str s), rest)
      | .kw "true" :: rest => some (.literal (.bool true), rest)
      | .kw "false" :: rest => some (.literal (.bool false), rest)
      | .kw "null" :: rest => some (.literal .null, rest)
      | .ident s :: rest =>
        let d := parseDotted s rest
        some (.identifier d.1, d.2)
      | .var s :: rest => some (.var s, rest)
      | .sym "(" :: rest =>
        match parseLvl fuel 8 rest with
        | some (e, .sym ")" :: r2) => some (e, r2)
        | _ => none
      | .sym "[" :: rest =>
        match parseLvl fuel 8 rest with
        | some (e, r) => parseItems fuel [e] r
        | none => none
      | _ => none
    else if lvl = 1 then
      -- unary additive, right associative, tightest level
      match ts with
      | .sym "+" :: rest =>
        match parseLvl fuel 1 rest with
        | some (e, r) => some (.op1 "+" e, r)
        | none => none
      | .sym "-" :: rest =>
        match parseLvl fuel 1 rest with
        | some (e, r) => some (.op1 "-" e, r)
        | none => none
      | _ => parseLvl fuel 0 ts
    else if lvl = 2 then
      match ts with
      | .kw "not" :: rest =>
        match parseLvl fuel 2 rest with
        | some (e, r) => some (.op1 "not" e, r)
        | none => none
      | _ => parseLvl fuel 1 ts
    else
      match parseLvl fuel (lvl - 1) ts with
      | some (e, r) => parseRest fuel lvl e r
      | none => none

def parseRest (fuel : Nat) (lvl : Nat) (acc : Ast) (ts : List Tok) :
    Option (Ast × List Tok) :=
  match fuel with
  | 0 => none
  | fuel + 1 =>
    match levelOp lvl ts with
    | some (op, rest) =>
      match parseLvl fuel (lvl - 1) rest with
      | some (e2, r) => parseRest fuel lvl (.op2 op acc e2) r
      | none => none
    | none => some (acc, ts)

def parseItems (fuel : Nat) (acc : List Ast) (ts : List Tok) :
    Option (Ast × List Tok) :=
  match fuel with
  | 0 => none
  | fuel + 1 =>
    match ts with
    | .sym "," :: rest =>
      match parseLvl fuel 8 rest with
      | some (e, r) => parseItems fuel (acc ++ [e]) r
      | none => none
    | .sym "]" :: rest => some (.list acc, rest)
    | _ => none

end

/-- `program = expression + stringEnd`: trailing tokens are an error. -/
def parseToks (ts : List Tok) : Except PErr Ast :=
  match parseLvl (32 * (ts.length + 2)) 8 ts with
  | some (a, []) => .ok a
  | some (_, _ :: _) => .error (.parseError "trailing input")
  | none => .error (.parseError "no parse")

/-- `_parser.parseString(s)[0]`: tokenize then parse a full expression. -/
def parse (s : String) : Except PErr Ast := do
  let ts ← tokenize s
  parseToks ts

/-! ## Values and the schema catalog

Plain host-language values flowing through the binder (literals,
variable bindings, row cells).  Floats keep their literal text: no claim
computes with float values, and float arithmetic is modelled as an error
(see `pyOp2`). -/

inductive PyVal where
  | int (n : Int)
  | float (s : String)
  | str (s : String)
  | bool (b : Bool)
  | null
deriving DecidableEq, Repr

def litToPy : Lit → PyVal
  | .bool b => .bool b
  | .int n => .int n
  | .float s => .float s
  | .str s => .str s
  | .null => .null

/-- A foreign-key edge of a column: SQLAlchemy `ForeignKey` resolving to
`column` (of name `targetCol`) on table `targetTable`. -/
structure FKey where
  targetTable : String
  targetCol : String
deriving DecidableEq, Repr

structure SColumn where
  name : String
  fkeys : List FKey
deriving DecidableEq, Repr

structure STable where
  name : String
  cols : List SColumn
deriving DecidableEq, Repr

def STable.findCol (t : STable) (n : String) : Option SColumn :=
  t.cols.find? (fun c => c.name == n)

def STable.colNames (t : STable) : List String := t.cols.map (·.name)

/-- A node of the join context: the source's `QueryBuilderHelper` /
`_JoinPart` objects, carrying a (possibly aliased) table and the map
`fk_columns` from foreign-key column name to child node.  An alias is
identified by the path of foreign-key column names from the root (the
root itself has path `[]`); SQLAlchemy's generated alias names are
deterministic in construction order, which this path captures. -/
inductive JoinNode where
  | mk (table : STable) (aliasPath : List String) (fks : List (String × JoinNode))

def JoinNode.table : JoinNode → STable
  | .mk t _ _ => t

def JoinNode.aliasPath : JoinNode → List String
  | .mk _ a _ => a

def JoinNode.fks : JoinNode → List (String × JoinNode)
  | .mk _ _ f => f

/-- Binding/persistence errors.  The source raises `AssertionError`,
`KeyError`, `ParseException`, `PersistenceException` and
`UnrecoverablePersistenceException`; each distinct failure gets a
variant. -/
inductive BErr where
  | parseErr (e : PErr)
  | unknownColumn (table col : String)
  | notAForeignKey (col : String)
  | ambiguousForeignKey (col : String)
  | targetNotId (col : String)
  | unknownTable (name : String)
  | forbiddenIdThroughFk
  | unboundVariable (name : String)
  | operatorMisuse (op : String)
  | typeError (msg : String)
  | internalError (msg : String)
  | notFound (table : String)
  | unrecoverable (table : String)
  | keyError (key : String)
deriving DecidableEq, Repr

/-- The ON condition emitted for a join:
`child_alias.id == parent_alias.fk_column`. -/
structure OnCond where
  childAlias : List String
  childCol : String
  parentAlias : List String
  parentCol : String
deriving DecidableEq, Repr

/-- The emitted FROM clause: base table plus LEFT OUTER JOINs
(`current_from.outerjoin(...)` chains in `_walk_tables`). -/
inductive FromClause where
  | base (table : String)
  | outerjoin (f : FromClause) (childAlias : List String) (childTable : String)
      (cond : OnCond)
deriving DecidableEq, Repr

/-! ## Bound values and relational expressions

`_walk` returns either a plain host value (literals, variables, constant
folds), a host list, or a SQLAlchemy clause element.  The mutual sum
below embeds those; `SqlExpr` constructors mirror the clause elements
the source builds (`Column`, `literal`, operator overloads, `in_`,
`like`, `ilike`, `not_`, and the `id IN (subselect)` of
`TableManager._expression`). -/

mutual

inductive BVal where
  | py (v : PyVal)
  | lst (l : List BVal)
  | sql (e : SqlExpr)

inductive SqlExpr where
  | col (aliasPath : List String) (name : String)
  | literal (v : BVal)
  | bin (op : String) (a b : BVal)
  | un (op : String) (a : BVal)
  | inPred (a : SqlExpr) (items : BVal)
  | likeP (a : SqlExpr) (p : BVal)
  | ilikeP (a : SqlExpr) (p : BVal)
  | inSub (a : SqlExpr) (sel : SubQuery)

inductive SubQuery where
  | mk (sel : List SqlExpr) (src : FromClause) (cond : SqlExpr)

end

/-- `_column_walk(current, vals)`: resolve a dotted path at a join node,
returning the bound column and the updated node (the source mutates
`fk_columns` in place).  The checks appear in source order: unknown
column first; for a path that must traverse a foreign key with no child
installed yet, the foreign-key asserts, then the target-must-be-id
assert, then child installation, then the `vals[1] != "id"` assert,
then recursion. -/
def columnWalk (cat : List STable) : JoinNode → List String → Except BErr (SqlExpr × JoinNode)
  | _, [] => .error (.internalError "empty path")
  | .mk t a fks, v :: rest =>
    match STable.findCol t v with
    | none => .error (.unknownColumn t.name v)
    | some col =>
      match rest with
      | [] => .ok (.col a v, .mk t a fks)
      | r1 :: _ =>
        match fks.find? (fun p => p.1 == v) with
        | some (_, child) =>
          if r1 = "id" then .error .forbiddenIdThroughFk
          else
            match columnWalk cat child rest with
            | .ok (c, child2) =>
              .ok (c, .mk t a (fks.map (fun p => if p.1 = v then (v, child2) else p)))
            | .error e => .error e
        | none =>
          if col.fkeys.length = 0 then .error (.notAForeignKey v)
          else if 2 ≤ col.fkeys.length then .error (.ambiguousForeignKey v)
          else
            match col.fkeys with
            | [fk] =>
              match cat.find? (fun t2 => t2.name == fk.targetTable) with
              | none => .error (.unknownTable fk.targetTable)
              | some t2 =>
                if fk.targetCol ≠ "id" then .error (.targetNotId v)
                else if r1 = "id" then .error .forbiddenIdThroughFk
                else
                  match columnWalk cat (.mk t2 (a ++ [v]) []) rest with
                  | .ok (c, child2) => .ok (c, .mk t a (fks ++ [(v, child2)]))
                  | .error e => .error e
            | _ => .error (.internalError "unreachable")

/-! ## Join emission (`from_clause` / `_walk_tables`)

The source iterates `sorted(ctx.fk_columns.keys())` and looks each key
up in the dict; with the keys of `fk_columns` pairwise distinct (they
are: installation checks `column_name not in fk_columns`), this is the
same as iterating the association list sorted by key. -/

/-- `sorted(ctx.fk_columns.keys())`: the pairs sorted by key
(lexicographic string order, as the host's `sorted`). -/
def sortPairs (l : List (String × JoinNode)) : List (String × JoinNode) :=
  l.insertionSort (fun p q => p.1 ≤ q.1)

theorem mem_sortPairs {x : String × JoinNode} (l : List (String × JoinNode))
    (h : x ∈ sortPairs l) : x ∈ l :=
  (List.perm_insertionSort _ l).mem_iff.mp h

mutual

/-- Structural size of a join tree (drives the fuel of the emission
recursion and evaluates definitionally). -/
def joinSize : JoinNode → Nat
  | .mk _ _ fks => joinSizeList fks + 1

def joinSizeList : List (String × JoinNode) → Nat
  | [] => 0
  | p :: rest => joinSize p.2 + joinSizeList rest + 1

end

theorem joinSize_pos (n : JoinNode) : 1 ≤ joinSize n := by
  cases n with
  | mk t a fks => simp [joinSize]

theorem joinSize_mem_lt {p : String × JoinNode} :
    ∀ fks : List (String × JoinNode), p ∈ fks →
      joinSize p.2 < joinSizeList fks + 1 := by
  intro fks
  induction fks with
  | nil => intro h; cases h
  | cons q rest ih =>
    intro h
    rcases List.mem_cons.mp h with h | h
    · subst h; simp [joinSizeList]; omega
    · have := ih h
      simp [joinSizeList]
      omega

theorem joinSize_child_lt {p : String × JoinNode} {t : STable}
    {a : List String} {fks : List (String × JoinNode)} (h : p ∈ fks) :
    joinSize p.2 < joinSize (JoinNode.mk t a fks) := by
  simp only [joinSize]
  exact joinSize_mem_lt fks h

/-- `_walk_tables(current_from, ctx)`: attach each foreign-key child,
in sorted key order, as `LEFT OUTER JOIN child ON child.id ==
parent.fk`, recursing into the child before moving to the next
sibling.  The recursion is driven by a fuel bounded by the node size
(so that the function evaluates definitionally); `walkTablesF_fuel`
shows any sufficient fuel gives the same clause. -/
def walkTablesF : Nat → FromClause → JoinNode → FromClause
  | 0, cur, _ => cur
  | fuel + 1, cur, .mk _t a fks =>
    (sortPairs fks).foldl
      (fun c p =>
        walkTablesF fuel
          (.outerjoin c p.2.aliasPath p.2.table.name
            ⟨p.2.aliasPath, "id", a, p.1⟩)
          p.2)
      cur

def walkTables (cur : FromClause) (n : JoinNode) : FromClause :=
  walkTablesF (joinSize n) cur n

theorem walkTablesF_fuel : ∀ (fuel1 fuel2 : Nat) (cur : FromClause)
    (n : JoinNode), joinSize n ≤ fuel1 → joinSize n ≤ fuel2 →
    walkTablesF fuel1 cur n = walkTablesF fuel2 cur n := by
  intro fuel1
  induction fuel1 with
  | zero =>
    intro fuel2 cur n h1 _
    have := joinSize_pos n
    omega
  | succ f ih =>
    intro fuel2 cur n h1 h2
    cases n with
    | mk t a fks =>
      cases fuel2 with
      | zero =>
        have := joinSize_pos (JoinNode.mk t a fks)
        omega
      | succ f2 =>
        simp only [walkTablesF]
        apply List.foldl_ext
        intro acc p hp
        have hmem : p ∈ fks := mem_sortPairs _ hp
        have hlt : joinSize p.2 < joinSize (JoinNode.mk t a fks) :=
          joinSize_child_lt hmem
        rw [ih f2 _ p.2 (by omega) (by omega)]

/-- `from_clause()`: the FROM tree rooted at the helper's base table. -/
def fromClause (root : JoinNode) : FromClause :=
  walkTables (.base root.table.name) root

instance : IsTotal (String × JoinNode) (fun p q => p.1 ≤ q.1) :=
  ⟨fun a b => le_total a.1 b.1⟩

instance : IsTrans (String × JoinNode) (fun p q => p.1 ≤ q.1) :=
  ⟨fun _ _ _ h1 h2 => le_trans h1 h2⟩

instance : IsAntisymm (String × JoinNode) (fun p q => p.1 < q.1) :=
  ⟨fun _ _ h1 h2 => absurd h2 (not_lt_of_gt h1)⟩

/-- Sorting by key is permutation-invariant when keys are pairwise
distinct (as the keys of `fk_columns` are). -/
theorem sortPairs_eq_of_perm {l1 l2 : List (String × JoinNode)}
    (h : l1.Perm l2) (hnd : (l1.map Prod.fst).Nodup) :
    sortPairs l1 = sortPairs l2 := by
  have hperm : (sortPairs l1).Perm (sortPairs l2) :=
    (List.perm_insertionSort _ l1).trans (h.trans (List.perm_insertionSort _ l2).symm)
  have hnd1 : ((sortPairs l1).map Prod.fst).Nodup :=
    (((List.perm_insertionSort _ l1).map Prod.fst).nodup_iff).mpr hnd
  have hnd2 : ((sortPairs l2).map Prod.fst).Nodup :=
    (((List.perm_insertionSort _ l2).map Prod.fst).nodup_iff).mpr
      ((h.map Prod.fst).nodup_iff.mp hnd)
  have strict : ∀ l : List (String × JoinNode),
      l.Sorted (fun p q => p.1 ≤ q.1) → (l.map Prod.fst).Nodup →
      l.Sorted (fun p q => p.1 < q.1) := by
    intro l hs hn
    have hne : l.Pairwise (fun p q : String × JoinNode => p.1 ≠ q.1) :=
      (List.pairwise_map.mp hn)
    exact (hs.and hne).imp (fun hpq => lt_of_le_of_ne hpq.1 hpq.2)
  exact List.eq_of_perm_of_sorted hperm
    (strict _ (List.sorted_insertionSort _ l1) hnd1)
    (strict _ (List.sorted_insertionSort _ l2) hnd2)

/-- `_walk_tables` unfolded: a left fold of LEFT OUTER JOINs over the
children in sorted key order, each joined `ON child.id == parent.fk`
and recursively expanded before the next sibling. -/
theorem walkTables_sorted_fold (cur : FromClause) (t : STable)
    (a : List String) (fks : List (String × JoinNode)) :
    walkTables cur (.mk t a fks) =
      (sortPairs fks).foldl
        (fun c p =>
          walkTables
            (.outerjoin c p.2.aliasPath p.2.table.name
              ⟨p.2.aliasPath, "id", a, p.1⟩)
            p.2)
        cur := by
  rw [walkTables,
    walkTablesF_fuel (joinSize (JoinNode.mk t a fks))
      (joinSize (JoinNode.mk t a fks) + 1) cur _ (le_refl _) (Nat.le_succ _)]
  simp only [walkTablesF]
  apply List.foldl_ext
  intro acc p hp
  have hlt : joinSize p.2 < joinSize (JoinNode.mk t a fks) :=
    joinSize_child_lt (mem_sortPairs _ hp)
  rw [walkTables,
    walkTablesF_fuel (joinSize (JoinNode.mk t a fks)) (joinSize p.2) _ p.2
      (by omega) (le_refl _)]

/-! ## Host-language operator semantics

`_op2` applies `operator.eq`, `operator.add`, ... directly; when both
operands are plain host values the operation happens in the host
language (the repository's own tests rely on this constant folding:
`where_clause("2. == 2.")` equals `literal(True)`).  We model the host
semantics for the value shapes the claims exercise: integers, booleans
(coerced to integers), strings, `null`, and lists.  Float arithmetic,
string repetition, and the host's cross-type ordering are outside every
claim and are modelled as type errors (marked below). -/

def pvToInt : PyVal → Option Int
  | .int n => some n
  | .bool b => some (if b then 1 else 0)
  | _ => none

/-- Host equality on scalar values (`==`), with the numeric/boolean
coercion; float equality is textual (no claim compares floats). -/
def pvEq (a b : PyVal) : Bool :=
  match pvToInt a, pvToInt b with
  | some x, some y => x == y
  | _, _ =>
    match a, b with
    | .str s, .str t => s == t
    | .float s, .float t => s == t
    | .null, .null => true
    | _, _ => false

mutual

/-- Host `==` on bound values.  List equality compares elementwise; an
elementwise comparison that produces a clause element would be
truth-tested by the host list comparison, which raises. -/
def pyEqB : BVal → BVal → Except BErr Bool
  | .py a, .py b => .ok (pvEq a b)
  | .lst l1, .lst l2 => pyEqList l1 l2
  | .sql _, _ => .error (.typeError "truth value of a clause element")
  | _, .sql _ => .error (.typeError "truth value of a clause element")
  | _, _ => .ok false

def pyEqList : List BVal → List BVal → Except BErr Bool
  | [], [] => .ok true
  | a :: l1, b :: l2 => do
    if (← pyEqB a b) then pyEqList l1 l2 else .ok false
  | _, _ => .ok false

end

/-- Host ordering comparisons on scalars: numeric and string orders.
Floats and the host's arbitrary cross-type ordering are not modelled
(no claim exercises them). -/
def pvCmp (op : String) (a b : PyVal) : Except BErr Bool :=
  match pvToInt a, pvToInt b with
  | some x, some y =>
    if op = "<" then .ok (decide (x < y))
    else if op = "<=" then .ok (decide (x ≤ y))
    else if op = ">" then .ok (decide (x > y))
    else .ok (decide (x ≥ y))
  | _, _ =>
    match a, b with
    | .str s, .str t =>
      if op = "<" then .ok (decide (s < t))
      else if op = "<=" then .ok (decide (s ≤ t))
      else if op = ">" then .ok (decide (t < s))
      else .ok (decide (t ≤ s))
    | _, _ => .error (.typeError "comparison not modelled")

/-- Host semantics of a binary operator on plain (non-clause) operands:
`operator.eq/ne/lt/.../add/sub/mul/div/mod` from `_operators`.
Division and modulus are the host's floor division and sign-of-divisor
modulus; division by zero raises. -/
def pyOp2 (op : String) (a b : BVal) : Except BErr BVal :=
  if op = "==" then (pyEqB a b).map (fun r => .py (.bool r))
  else if op = "!=" then (pyEqB a b).map (fun r => .py (.bool (!r)))
  else if op ∈ ["<", "<=", ">", ">="] then
    match a, b with
    | .py x, .py y => (pvCmp op x y).map (fun r => .py (.bool r))
    | _, _ => .error (.typeError "comparison not modelled")
  else if op ∈ ["+", "-", "*", "/", "%"] then
    match a, b with
    | .py x, .py y =>
      match pvToInt x, pvToInt y with
      | some m, some n =>
        if op = "+" then .ok (.py (.int (m + n)))
        else if op = "-" then .ok (.py (.int (m - n)))
        else if op = "*" then .ok (.py (.int (m * n)))
        else if n = 0 then .error (.typeError "division by zero")
        else if op = "/" then .ok (.py (.int (Int.fdiv m n)))
        else .ok (.py (.int (Int.fmod m n)))
      | _, _ =>
        match x, y with
        | .str s, .str t =>
          if op = "+" then .ok (.py (.str (s ++ t)))
          else .error (.typeError "string arithmetic not modelled")
        | _, _ => .error (.typeError "arithmetic not modelled")
    | .lst l1, .lst l2 =>
      if op = "+" then .ok (.lst (l1 ++ l2))
      else .error (.typeError "list arithmetic not modelled")
    | _, _ => .error (.typeError "arithmetic not modelled")
  else .error (.internalError "bad host operator")

/-- `_op1`: unary `+`, `-`, `not`.  `not` is `expr.not_`, which coerces
its argument and always yields a clause element; unary minus on a
clause element is the clause negation; the host has no unary plus on
clause elements. -/
def op1E (op : String) (v : BVal) : Except BErr BVal :=
  if op = "+" then
    match v with
    | .py x =>
      match pvToInt x with
      | some n => .ok (.py (.int n))
      | none => .error (.typeError "unary plus not modelled")
    | _ => .error (.typeError "unary plus not modelled")
  else if op = "-" then
    match v with
    | .py x =>
      match pvToInt x with
      | some n => .ok (.py (.int (-n)))
      | none => .error (.typeError "unary minus not modelled")
    | .sql _ => .ok (.sql (.un "-" v))
    | .lst _ => .error (.typeError "unary minus on a list")
  else if op = "not" then .ok (.sql (.un "not" v))
  else .error (.internalError "bad unary operator")

def opKeys : List String :=
  ["or", "and", "==", "!=", "in", "<=", ">=", "<", ">",
   "+", "-", "*", "/", "%", "like", "ilike"]

/-- `_op2`: binary operator dispatch after both operands are walked.
`or`/`and` are `expr.or_`/`expr.and_` (always clause elements);
`in`/`like`/`ilike` go through `_in`/`_like`/`_ilike`, whose asserts
require the left operand to be a clause element (`expr.ColumnElement`)
and raise otherwise; the remaining operators run in the host language
when neither operand is a clause element (constant folding) and build a
clause element otherwise (the clause operand's operator overload binds
the plain operand as a literal parameter). -/
def op2E (op : String) (e1 e2 : BVal) : Except BErr BVal :=
  if op ∉ opKeys then .error (.internalError "unsupported operator")
  else if op = "or" then .ok (.sql (.bin "or" e1 e2))
  else if op = "and" then .ok (.sql (.bin "and" e1 e2))
  else if op = "in" then
    match e1 with
    | .sql c =>
      match e2 with
      | .lst l => .ok (.sql (.inPred c (.lst l)))
      | .sql s => .ok (.sql (.inPred c (.sql s)))
      | .py _ => .error (.typeError "in requires an iterable right operand")
    | _ => .error (.operatorMisuse "in")
  else if op = "like" then
    match e1 with
    | .sql c => .ok (.sql (.likeP c e2))
    | _ => .error (.operatorMisuse "like")
  else if op = "ilike" then
    match e1 with
    | .sql c => .ok (.sql (.ilikeP c e2))
    | _ => .error (.operatorMisuse "ilike")
  else
    match e1, e2 with
    | .sql _, _ => .ok (.sql (.bin op e1 e2))
    | _, .sql _ => .ok (.sql (.bin op e1 e2))
    | _, _ => pyOp2 op e1 e2

/-! ## The AST walker (`QueryBuilderHelper._walk`)

Identifiers resolve through `_column_walk` (mutating the join context,
threaded explicitly); variables come from the parameter map (`KeyError`
→ unbound variable); `null` becomes the host null; lists walk
elementwise. -/

/-- `val.split(".")` (structurally recursive so that concrete bindings
evaluate definitionally). -/
def splitOnDot : List Char → List (List Char)
  | [] => [[]]
  | x :: xs =>
    match splitOnDot xs with
    | [] => [[]]
    | h :: t => if x = '.' then [] :: h :: t else (x :: h) :: t

def splitDots (s : String) : List String :=
  (splitOnDot s.data).map (fun l => String.mk l)

mutual

def walkA (cat : List STable) (values : List (String × PyVal)) :
    JoinNode → Ast → Except BErr (BVal × JoinNode)
  | n, .identifier s =>
    match columnWalk cat n (splitDots s) with
    | .ok (c, n') => .ok (.sql c, n')
    | .error e => .error e
  | n, .var name =>
    match values.find? (fun p => p.1 == name) with
    | some p => .ok (.py p.2, n)
    | none => .error (.unboundVariable name)
  | n, .literal l => .ok (.py (litToPy l), n)
  | n, .list items =>
    match walkList cat values n items with
    | .ok (l, n') => .ok (.lst l, n')
    | .error e => .error e
  | n, .op1 op a =>
    match walkA cat values n a with
    | .ok (v, n') =>
      match op1E op v with
      | .ok r => .ok (r, n')
      | .error e => .error e
    | .error e => .error e
  | n, .op2 op a b =>
    match walkA cat values n a with
    | .ok (v1, n1) =>
      match walkA cat values n1 b with
      | .ok (v2, n2) =>
        match op2E op v1 v2 with
        | .ok r => .ok (r, n2)
        | .error e => .error e
      | .error e => .error e
    | .error e => .error e

def walkList (cat : List STable) (values : List (String × PyVal)) :
    JoinNode → List Ast → Except BErr (List BVal × JoinNode)
  | n, [] => .ok ([], n)
  | n, a :: rest =>
    match walkA cat values n a with
    | .ok (v, n1) =>
      match walkList cat values n1 rest with
      | .ok (l, n2) => .ok (v :: l, n2)
      | .error e => .error e
    | .error e => .error e

end

/-- `QueryBuilderHelper.__init__`: the table must contain a column
named `id`. -/
def qbhInit (t : STable) : Except BErr JoinNode :=
  if (STable.findCol t "id").isSome then .ok (.mk t [] [])
  else .error (.internalError "table must contain a column named id")

/-- The `expression` argument of `where_clause`: a pre-built clause
element, `None`, or FQL source text. -/
inductive WhereInput where
  | clauseE (e : SqlExpr)
  | noneE
  | strE (s : String)

/-- `where_clause(expression, values)`: clause elements pass through,
`None` yields no WHERE, otherwise compile and walk, wrapping a plain
host result in `expr.literal`.  The compiled-AST cache is transparent
here (a hit returns the stored parse result), so the embedding parses
directly; the cache itself is modelled below for the cache claims. -/
def whereClauseQ (cat : List STable) (n : JoinNode) (w : WhereInput)
    (values : List (String × PyVal)) : Except BErr (Option SqlExpr × JoinNode) :=
  match w with
  | .clauseE e => .ok (some e, n)
  | .noneE => .ok (none, n)
  | .strE s =>
    match parse s with
    | .error e => .error (.parseErr e)
    | .ok tree =>
      match walkA cat values n tree with
      | .ok (v, n') =>
        match v with
        | .sql e => .ok (some e, n')
        | v => .ok (some (.literal v), n')
      | .error e => .error e

/-! ## The data-access facade (`table_manager.py`)

The `expression` argument of the facade methods (`_convert_expression`):
a clause element, `None`, FQL text, or an (FQL text, parameter map)
pair. -/

inductive ExprInput where
  | clauseE (e : SqlExpr)
  | noneE
  | strE (s : String)
  | pairE (s : String) (values : List (String × PyVal))

/-- `_convert_expression`: split the input into an expression part and a
parameter map. -/
def convertExpression : ExprInput → WhereInput × List (String × PyVal)
  | .clauseE e => (.clauseE e, [])
  | .noneE => (.noneE, [])
  | .strE s => (.strE s, [])
  | .pairE s vals => (.strE s, vals)

/-- `TableManager._expression`: a clause element passes through
unchanged; `None` becomes `literal(True)`; FQL text is bound by a fresh
`QueryBuilderHelper` and wrapped into
`table.id IN (SELECT table.id FROM <join tree> WHERE <predicate>)`. -/
def tmExpression (cat : List STable) (t : STable) (e : ExprInput) :
    Except BErr SqlExpr :=
  let (exp, values) := convertExpression e
  match exp with
  | .clauseE c => .ok c
  | .noneE => .ok (.literal (.py (.bool true)))
  | .strE s =>
    match qbhInit t with
    | .error e => .error e
    | .ok root =>
      match whereClauseQ cat root (.strE s) values with
      | .error e => .error e
      | .ok (none, _) => .error (.internalError "unreachable")
      | .ok (some wc, root') =>
        .ok (.inSub (.col [] "id")
          (.mk [.col [] "id"] (fromClause root') wc))

/-! ### Driver model

The driver executes the emitted query against the stored rows.  A row is
an association list from column name to value.  The facade's by-id paths
need the evaluation of `table.id IN (list)` predicates and of boolean
literals only; other predicate shapes are not executed by any claim. -/

def DRow := List (String × PyVal)

def rowGet (r : DRow) (f : String) : PyVal :=
  match r.find? (fun p => p.1 == f) with
  | some p => p.2
  | none => .null

/-- `self.table.c.id.in_(ids)` with a host list of integer ids. -/
def idIn (ids : List Int) : SqlExpr :=
  .inPred (.col [] "id") (.lst (ids.map (fun i => .py (.int i))))

/-- Driver evaluation of the predicate shapes used by the by-id paths. -/
def evalPred (r : DRow) : SqlExpr → Option Bool
  | .literal (.py (.bool b)) => some b
  | .inPred (.col [] c) (.lst l) =>
    some (l.any (fun v =>
      match v with
      | .py pv => pvEq (rowGet r c) pv
      | _ => false))
  | _ => none

/-- Match the stored rows against a predicate; `none` if the predicate
shape is outside the modelled driver fragment. -/
def matchRows (rows : List DRow) (w : SqlExpr) : Option (List (DRow × Bool)) :=
  match rows with
  | [] => some []
  | r :: rest =>
    match evalPred r w, matchRows rest w with
    | some b, some l => some ((r, b) :: l)
    | _, _ => none

/-- `read(expression, fields)` as invoked by `read_many_by_id`: fields
are resolved through `qbh.column` (they must be columns of the table;
the by-id path uses plain column names, so dotted foreign-key fields —
possible in general `read` calls but exercised by no claim — are not
modelled) and each matching row is converted to a dictionary of the
requested fields, in table order.  ORDER BY / LIMIT / OFFSET are not
passed by the by-id path and are not modelled. -/
def readRows (t : STable) (rows : List DRow) (w : Option SqlExpr)
    (fields : List String) : Except BErr (List DRow) :=
  match fields.find? (fun f => (STable.findCol t f).isNone) with
  | some f => .error (.unknownColumn t.name f)
  | none =>
    match w with
    | none => .ok (rows.map (fun r => fields.map (fun f => (f, rowGet r f))))
    | some wc =>
      match matchRows rows wc with
      | none => .error (.internalError "predicate not executable")
      | some l =>
        .ok ((l.filter (fun rb => rb.2)).map
          (fun rb => fields.map (fun f => (f, rowGet rb.1 f))))

/-- The index `dict([(x["id"], x) for x in res])`: for a duplicated key
the later entry wins. -/
def dictLookup (l : List (PyVal × DRow)) (k : PyVal) : Option DRow :=
  match l.reverse.find? (fun p => p.1 == k) with
  | some p => some p.2
  | none => none

/-- The id-resolution loop of `read_many_by_id`: look every requested
id up in the index, failing (`NotFound`) at the first missing one. -/
def lookupAll (index : List (PyVal × DRow)) : List Int → Option (List DRow)
  | [] => some []
  | i :: rest =>
    match dictLookup index (.int i), lookupAll index rest with
    | some x, some l => some (x :: l)
    | _, _ => none

/-- `read_many_by_id(ids, fields)`.  When `fields` lacks `id`, the
source appends `"id"` for the query and ends with
`for el in res: del el["id"]`.  That loop mutates the row dictionaries
in place, and a duplicated requested id puts the *same* dictionary in
the result twice (both copies come from the index), so the second
deletion raises `KeyError`; the guard below renders that mutation
semantics. -/
def readManyById (t : STable) (rows : List DRow) (ids : List Int)
    (fields : Option (List String)) : Except BErr (List DRow) :=
  let hasid := match fields with
    | none => true
    | some fs => "id" ∈ fs
  let flds := match fields with
    | none => t.colNames
    | some fs => if hasid then fs else fs ++ ["id"]
  match readRows t rows (some (idIn ids)) flds with
  | .error e => .error e
  | .ok res =>
    let index := res.map (fun x => (rowGet x "id", x))
    match lookupAll index ids with
    | none => .error (.notFound t.name)
    | some out =>
      if hasid then .ok out
      else if ids.Nodup then
        .ok (out.map (fun r => r.filter (fun p => !(p.1 == "id"))))
      else .error (.keyError "id")

/-- UPDATE execution: set the listed columns on every matching row;
the driver reports the number of matched rows. -/
def applyValues (values : List (String × PyVal)) (r : DRow) : DRow :=
  r.map (fun p =>
    match values.find? (fun q => q.1 == p.1) with
    | some q => (p.1, q.2)
    | none => p)

/-- `update(expression, values)`: check the value keys are columns,
build the WHERE clause through `_expression`, execute, and return the
affected-row count (with the updated store). -/
def updateQ (cat : List STable) (t : STable) (rows : List DRow)
    (e : ExprInput) (values : List (String × PyVal)) :
    Except BErr (Nat × List DRow) :=
  match values.find? (fun p => (STable.findCol t p.1).isNone) with
  | some p => .error (.unknownColumn t.name p.1)
  | none =>
    match tmExpression cat t e with
    | .error err => .error err
    | .ok w =>
      match matchRows rows w with
      | none => .error (.internalError "predicate not executable")
      | some l =>
        .ok ((l.filter (fun rb => rb.2)).length,
          l.map (fun rb => if rb.2 then applyValues values rb.1 else rb.1))

/-- `delete(expression)`: delete matching rows, return the count. -/
def deleteQ (cat : List STable) (t : STable) (rows : List DRow)
    (e : ExprInput) : Except BErr (Nat × List DRow) :=
  match tmExpression cat t e with
  | .error err => .error err
  | .ok w =>
    match matchRows rows w with
    | none => .error (.internalError "predicate not executable")
    | some l =>
      .ok ((l.filter (fun rb => rb.2)).length,
        (l.filter (fun rb => !rb.2)).map (fun rb => rb.1))

/-- `update_many_by_id(ids, values)`: update through
`table.id.in_(ids)` and require the affected-row count to equal the
number of requested ids, else `UnrecoverablePersistenceException`. -/
def updateManyById (cat : List STable) (t : STable) (rows : List DRow)
    (ids : List Int) (values : List (String × PyVal)) :
    Except BErr (List DRow) :=
  match updateQ cat t rows (.clauseE (idIn ids)) values with
  | .error e => .error e
  | .ok (rowcount, rows') =>
    if rowcount ≠ ids.length then .error (.unrecoverable t.name)
    else .ok rows'

/-- `delete_many_by_id(ids)`: same affected-row-count contract. -/
def deleteManyById (cat : List STable) (t : STable) (rows : List DRow)
    (ids : List Int) : Except BErr (List DRow) :=
  match deleteQ cat t rows (.clauseE (idIn ids)) with
  | .error e => .error e
  | .ok (rowcount, rows') =>
    if rowcount ≠ ids.length then .error (.unrecoverable t.name)
    else .ok rows'

/-- The built UPDATE statement, for the claims about its WHERE shape. -/
structure UpdateStmt where
  table : String
  cond : SqlExpr
  values : List (String × PyVal)

/-- The WHERE clause `update()` attaches:
`query.where(self._expression(expression))`. -/
def buildUpdate (cat : List STable) (t : STable) (e : ExprInput)
    (values : List (String × PyVal)) : Except BErr UpdateStmt :=
  match values.find? (fun p => (STable.findCol t p.1).isNone) with
  | some p => .error (.unknownColumn t.name p.1)
  | none =>
    match tmExpression cat t e with
    | .error err => .error err
    | .ok w => .ok ⟨t.name, w, values⟩

structure DeleteStmt where
  table : String
  cond : SqlExpr

/-- The WHERE clause `delete()` attaches. -/
def buildDelete (cat : List STable) (t : STable) (e : ExprInput) :
    Except BErr DeleteStmt :=
  match tmExpression cat t e with
  | .error err => .error err
  | .ok w => .ok ⟨t.name, w⟩

/-! ## The compiled-AST cache (`_cache` / `_compile`)

`pylru.lrucache(CACHE_SIZE)`: a bounded strict-LRU map.  The cache is
modelled as a list with the most recently used entry first: a get of a
present key moves it to the front; an insert puts the new entry at the
front and drops the least recently used entry when over capacity. -/

abbrev AstCache := List (String × Ast)

def lruGet (c : AstCache) (k : String) : Option (Ast × AstCache) :=
  match c.find? (fun p => p.1 == k) with
  | some p => some (p.2, (k, p.2) :: c.eraseP (fun q => q.1 == k))
  | none => none

def lruInsert (cap : Nat) (c : AstCache) (k : String) (v : Ast) : AstCache :=
  ((k, v) :: c.eraseP (fun q => q.1 == k)).take cap

/-- `_compile(expression)`: try the cache (a hit counts as an access),
otherwise parse and insert.  Returns the AST, the new cache state, and
whether the call was a cache hit. -/
def compileE (cap : Nat) (c : AstCache) (s : String) :
    Except PErr (Ast × AstCache × Bool) :=
  match lruGet c s with
  | some (tree, c') => .ok (tree, c', true)
  | none =>
    match parse s with
    | .ok tree => .ok (tree, lruInsert cap c s tree, false)
    | .error e => .error e

/-- Run `_compile` over a sequence of source strings, collecting the
hit/miss flag of each call. -/
def compileSeq (cap : Nat) (c : AstCache) :
    List String → Except PErr (AstCache × List Bool)
  | [] => .ok (c, [])
  | s :: rest =>
    match compileE cap c s with
    | .error e => .error e
    | .ok (_, c', hit) =>
      match compileSeq cap c' rest with
      | .error e => .error e
      | .ok (cf, hits) => .ok (cf, hit :: hits)

/-! ## Test fixtures and derived notions used by the claim theorems -/

/-- The `test_table2` fixture of the repository's tests:
columns `id`, `key`, `value`, no foreign keys. -/
def testTable2 : STable :=
  ⟨"test_table2", [⟨"id", []⟩, ⟨"key", []⟩, ⟨"value", []⟩]⟩

/-- The `test_table3` fixture: columns `id`, `key`, and `table2`, a
foreign key to `test_table2.id`. -/
def testTable3 : STable :=
  ⟨"test_table3", [⟨"id", []⟩, ⟨"key", []⟩, ⟨"table2", [⟨"test_table2", "id"⟩]⟩]⟩

def testCat : List STable := [testTable2, testTable3]

/-- Two stored rows for `test_table2`. -/
def testRows2 : List DRow :=
  [[("id", .int 1), ("key", .str "a"), ("value", .str "b")],
   [("id", .int 2), ("key", .str "c"), ("value", .str "d")]]

/-- Whether a row is matched by `table.id IN (ids)`. -/
def rowIdMatches (ids : List Int) (r : DRow) : Bool :=
  ids.any (fun i => pvEq (rowGet r "id") (.int i))

theorem evalPred_idIn (r : DRow) (ids : List Int) :
    evalPred r (idIn ids) = some (rowIdMatches ids r) := by
  simp only [evalPred, idIn, rowIdMatches]
  congr 1
  induction ids with
  | nil => rfl
  | cons i rest ih => simp only [List.map_cons, List.any_cons, ih]

theorem matchRows_idIn (rows : List DRow) (ids : List Int) :
    matchRows rows (idIn ids) =
      some (rows.map (fun r => (r, rowIdMatches ids r))) := by
  induction rows with
  | nil => simp [matchRows]
  | cons r rest ih => simp [matchRows, evalPred_idIn, ih]

theorem filter_snd_map_pair {α : Type} (g : α → Bool) (l : List α) :
    List.filter (fun rb => rb.2) (l.map (fun r => (r, g r))) =
      (l.filter g).map (fun r => (r, g r)) := by
  induction l with
  | nil => rfl
  | cons r rest ih =>
    by_cases h : g r <;> simp [List.filter_cons, h, ih]

theorem del_filter_map_pair {α : Type} (g : α → Bool) (l : List α) :
    ((l.map (fun r => (r, g r))).filter (fun rb => !rb.2)).map (fun rb => rb.1) =
      l.filter (fun r => !g r) := by
  induction l with
  | nil => rfl
  | cons r rest ih =>
    by_cases h : g r <;> simp [List.filter_cons, h, ih]

/-- The affected-row count the driver reports for
`UPDATE ... WHERE table.id IN (ids)`, with the updated store. -/
theorem updateQ_idIn (cat : List STable) (t : STable) (rows : List DRow)
    (ids : List Int) (values : List (String × PyVal))
    (hvals : values.find? (fun p => (STable.findCol t p.1).isNone) = none) :
    updateQ cat t rows (.clauseE (idIn ids)) values =
      .ok ((rows.filter (rowIdMatches ids)).length,
        rows.map (fun r => if rowIdMatches ids r then applyValues values r else r)) := by
  simp only [updateQ, hvals, tmExpression, convertExpression, matchRows_idIn]
  rw [filter_snd_map_pair, List.length_map, List.map_map]
  rfl

/-- The affected-row count the driver reports for
`DELETE ... WHERE table.id IN (ids)`, with the remaining rows. -/
theorem deleteQ_idIn (cat : List STable) (t : STable) (rows : List DRow)
    (ids : List Int) :
    deleteQ cat t rows (.clauseE (idIn ids)) =
      .ok ((rows.filter (rowIdMatches ids)).length,
        rows.filter (fun r => !rowIdMatches ids r)) := by
  simp only [deleteQ, tmExpression, convertExpression, matchRows_idIn]
  rw [filter_snd_map_pair, List.length_map, del_filter_map_pair]

/-! ## Claim theorems -/

/-- C2: the parser implements the precedence table with
left-associative binary operators.  For all integer literals,
`a + b * c` parses with multiplication binding tighter and
`(a + b) * c` honours the parentheses; the spec's concrete examples
`"1 + 2 * 3"`, `"(1 + 2) * 3"` parse accordingly; and the additive
chain `"'%' + value + '%'"` nests to the left (identifiers store the
dot-joined path, so `Identifier(["value"])` is `Ast.identifier
"value"`). -/
theorem C2_parser_precedence_assoc :
    (∀ a b c : Nat,
      parseToks [.int a, .sym "+", .int b, .sym "*", .int c] =
        .ok (.op2 "+" (.literal (.int a))
          (.op2 "*" (.literal (.int b)) (.literal (.int c))))) ∧
    (∀ a b c : Nat,
      parseToks [.sym "(", .int a, .sym "+", .int b, .sym ")", .sym "*", .int c] =
        .ok (.op2 "*" (.op2 "+" (.literal (.int a)) (.literal (.int b)))
          (.literal (.int c)))) ∧
    parse "1 + 2 * 3" =
      .ok (.op2 "+" (.literal (.int 1))
        (.op2 "*" (.literal (.int 2)) (.literal (.int 3)))) ∧
    parse "(1 + 2) * 3" =
      .ok (.op2 "*" (.op2 "+" (.literal (.int 1)) (.literal (.int 2)))
        (.literal (.int 3))) ∧
    parse "'%' + value + '%'" =
      .ok (.op2 "+" (.op2 "+" (.literal (.str "%")) (.identifier "value"))
        (.literal (.str "%"))) :=
  ⟨fun _ _ _ => rfl, fun _ _ _ => rfl, rfl, rfl, rfl⟩

/-- C1 (counterexample): with capacity 2 and an empty cache, compiling
`"a", "b", "c", "a"` produces four cache misses — the second parse of
`"a"` is *not* served from the cache ("a" was evicted when `"c"` was
inserted), contradicting the claimed cache hit. -/
theorem C1_counterexample_second_a_is_miss :
    (compileSeq 2 [] ["a", "b", "c", "a"]).map (fun p => p.2) =
      .ok [false, false, false, false] := rfl

/-- C1 (amended): with an AST cache of capacity 2 that is initially
empty, parsing A, B, C, A (A, B, C distinct, all parseable) leaves the
cache containing exactly the entries for A and C (A most recently
used), and every one of the four calls — including the second parse of
A — is a cache miss: A is evicted by the insertion of C under strict
LRU, and the fourth call reparses A and reinserts it, evicting B. -/
theorem C1_lru_abca (A B C : String) (tA tB tC : Ast)
    (hAB : A ≠ B) (hAC : A ≠ C) (hBC : B ≠ C)
    (hA : parse A = .ok tA) (hB : parse B = .ok tB) (hC : parse C = .ok tC) :
    compileSeq 2 [] [A, B, C, A] =
      .ok ([(A, tA), (C, tC)], [false, false, false, false]) := by
  have h1 : (A == B) = false := beq_eq_false_iff_ne.mpr hAB
  have h2 : (A == C) = false := beq_eq_false_iff_ne.mpr hAC
  have h3 : (B == C) = false := beq_eq_false_iff_ne.mpr hBC
  have h4 : (B == A) = false := beq_eq_false_iff_ne.mpr (Ne.symm hAB)
  have h5 : (C == A) = false := beq_eq_false_iff_ne.mpr (Ne.symm hAC)
  simp [compileSeq, compileE, lruGet, lruInsert, hA, hB, hC,
    List.find?, List.eraseP_cons, h1, h2, h3, h4, h5]

/-- C1 witness: the amended statement at the concrete strings
`"a"`, `"b"`, `"c"`. -/
theorem C1_lru_abca_witness :
    compileSeq 2 [] ["a", "b", "c", "a"] =
      .ok ([("a", .identifier "a"), ("c", .identifier "c")],
        [false, false, false, false]) :=
  C1_lru_abca "a" "b" "c" (.identifier "a") (.identifier "b") (.identifier "c")
    (by decide) (by decide) (by decide) rfl rfl rfl

/-- C4: `update_many_by_id(ids, values)` and `delete_many_by_id(ids)`
raise the unrecoverable persistence error exactly when the
driver-reported affected-row count (the number of stored rows matched
by `table.id IN (ids)`) differs from the length of the id list, and
complete normally — applying the update, resp. removing the matched
rows — when the counts are equal.  (The value keys are columns of the
table, as `update` asserts.) -/
theorem C4_bulk_rowcount_contract (cat : List STable) (t : STable)
    (rows : List DRow) (ids : List Int) (values : List (String × PyVal))
    (hvals : values.find? (fun p => (STable.findCol t p.1).isNone) = none) :
    (updateManyById cat t rows ids values = .error (.unrecoverable t.name) ↔
      (rows.filter (rowIdMatches ids)).length ≠ ids.length) ∧
    (deleteManyById cat t rows ids = .error (.unrecoverable t.name) ↔
      (rows.filter (rowIdMatches ids)).length ≠ ids.length) ∧
    ((rows.filter (rowIdMatches ids)).length = ids.length →
      updateManyById cat t rows ids values =
        .ok (rows.map (fun r =>
          if rowIdMatches ids r then applyValues values r else r)) ∧
      deleteManyById cat t rows ids =
        .ok (rows.filter (fun r => !rowIdMatches ids r))) := by
  have hu := updateQ_idIn cat t rows ids values hvals
  have hd := deleteQ_idIn cat t rows ids
  by_cases hc : (rows.filter (rowIdMatches ids)).length = ids.length
  · exact ⟨by simp [updateManyById, hu, hc], by simp [deleteManyById, hd, hc],
      fun _ => ⟨by simp [updateManyById, hu, hc], by simp [deleteManyById, hd, hc]⟩⟩
  · exact ⟨by simp [updateManyById, hu, hc], by simp [deleteManyById, hd, hc],
      fun h => absurd h hc⟩

/-- C4 witness: on the two stored test rows (ids 1, 2), updating ids
`[1, 3]` (count mismatch) is unrecoverable and deleting ids `[1, 2]`
(counts equal) completes normally. -/
theorem C4_bulk_rowcount_contract_witness :
    updateManyById testCat testTable2 testRows2 [1, 3] [("value", .str "z")] =
      .error (.unrecoverable "test_table2") ∧
    deleteManyById testCat testTable2 testRows2 [1, 2] = .ok [] :=
  ⟨(C4_bulk_rowcount_contract testCat testTable2 testRows2 [1, 3]
      [("value", .str "z")] (by rfl)).1.mpr (by decide),
   ((C4_bulk_rowcount_contract testCat testTable2 testRows2 [1, 2]
      [("value", .str "z")] (by rfl)).2.2 (by decide)).2⟩

theorem pvEq_int_int (m i : Int) : pvEq (.int m) (.int i) = true ↔ m = i := by
  simp [pvEq, pvToInt]

/-- C10: when the id list contains the same existing id more than
once, `update_many_by_id` raises the unrecoverable error even though
every requested id exists, because the driver counts each matching row
once (`id IN (...)`) while the comparison is against the length of the
duplicated list; `delete_many_by_id` behaves the same way.  (Stored
rows carry pairwise distinct integer ids, as the primary key
guarantees.) -/
theorem C10_duplicate_ids_unrecoverable (cat : List STable) (t : STable)
    (rows : List DRow) (ids : List Int) (values : List (String × PyVal))
    (hvals : values.find? (fun p => (STable.findCol t p.1).isNone) = none)
    (hdup : ¬ ids.Nodup)
    (hint : ∀ r ∈ rows, ∃ m : Int, rowGet r "id" = .int m)
    (hnd : (rows.map (fun r => rowGet r "id")).Nodup)
    (_hex : ∀ i ∈ ids, ∃ r ∈ rows, rowGet r "id" = .int i) :
    updateManyById cat t rows ids values = .error (.unrecoverable t.name) ∧
    deleteManyById cat t rows ids = .error (.unrecoverable t.name) := by
  have key : (rows.filter (rowIdMatches ids)).length ≠ ids.length := by
    have hsub : List.Sublist (rows.filter (rowIdMatches ids)) rows :=
      List.filter_sublist rows
    have hlnd : ((rows.filter (rowIdMatches ids)).map
        (fun r => rowGet r "id")).Nodup :=
      hnd.sublist (hsub.map _)
    have hmem : ∀ x ∈ (rows.filter (rowIdMatches ids)).map
        (fun r => rowGet r "id"), x ∈ (ids.map PyVal.int).dedup := by
      intro x hx
      rcases List.mem_map.mp hx with ⟨r, hr, hxr⟩
      have hrrows : r ∈ rows := hsub.subset hr
      have hmatch : rowIdMatches ids r = true := List.of_mem_filter hr
      rcases hint r hrrows with ⟨m, hm⟩
      rcases List.any_eq_true.mp hmatch with ⟨i, hi, hpeq⟩
      have : m = i := by
        rw [hm] at hpeq
        exact (pvEq_int_int m i).mp hpeq
      rw [List.mem_dedup]
      exact List.mem_map.mpr ⟨i, hi, by rw [← hxr, hm, this]⟩
    have hle : ((rows.filter (rowIdMatches ids)).map
        (fun r => rowGet r "id")).length ≤ (ids.map PyVal.int).dedup.length :=
      (hlnd.subperm hmem).length_le
    have hmnd : ¬ (ids.map PyVal.int).Nodup := fun h => hdup h.of_map
    have hdl : (ids.map PyVal.int).dedup.length < (ids.map PyVal.int).length := by
      have h1 : (ids.map PyVal.int).dedup.length ≤ (ids.map PyVal.int).length :=
        (List.dedup_sublist _).length_le
      rcases lt_or_eq_of_le h1 with h | h
      · exact h
      · exact absurd (((List.dedup_sublist _).eq_of_length h) ▸
          List.nodup_dedup (ids.map PyVal.int)) hmnd
    have := List.length_map (rows.filter (rowIdMatches ids)) (fun r => rowGet r "id")
    have := List.length_map ids PyVal.int
    omega
  have hu := updateQ_idIn cat t rows ids values hvals
  have hd := deleteQ_idIn cat t rows ids
  exact ⟨by simp [updateManyById, hu, key], by simp [deleteManyById, hd, key]⟩

/-- C10 witness: the duplicated list `[1, 1]` of the existing id 1. -/
theorem C10_duplicate_ids_unrecoverable_witness :
    updateManyById testCat testTable2 testRows2 [1, 1] [("value", .str "z")] =
      .error (.unrecoverable "test_table2") ∧
    deleteManyById testCat testTable2 testRows2 [1, 1] =
      .error (.unrecoverable "test_table2") :=
  C10_duplicate_ids_unrecoverable testCat testTable2 testRows2 [1, 1]
    [("value", .str "z")] (by rfl) (by decide)
    (by
      intro r hr
      simp only [testRows2, List.mem_cons, List.not_mem_nil, or_false] at hr
      rcases hr with h | h
      · exact ⟨1, by rw [h]; rfl⟩
      · exact ⟨2, by rw [h]; rfl⟩)
    (by decide)
    (by
      intro i hi
      simp only [List.mem_cons, List.not_mem_nil, or_false] at hi
      rcases hi with h | h <;> subst h <;>
        exact ⟨[("id", .int 1), ("key", .str "a"), ("value", .str "b")],
          by simp [testRows2], rfl⟩)

/-- C6 (counterexample): binding `[1] == [1]` — a binary operator other
than `in` with list operands on both sides — does *not* raise a binding
error: the comparison constant-folds in the host language and binding
yields the bound literal predicate TRUE. -/
theorem C6_counterexample_list_eq_binds :
    whereClauseQ [] (.mk testTable2 [] []) (.strE "[1] == [1]") [] =
      .ok (some (.literal (.py (.bool true))), .mk testTable2 [] []) := rfl

/-- C6 (amended): during binding, `in` is the only operator with a
list-specific rule — a clause-element left operand with a list right
operand builds the membership predicate.  The other binary operators
perform no list check at all: a list operand is simply passed to the
underlying operator, so with a clause element on the other side the
list is bound as a literal operand of an ordinary comparison, and with
plain literal lists on both sides the comparison constant-folds in the
host language — binding `[1] == [1]` yields the literal predicate TRUE
rather than a binding error. -/
theorem C6_amended_list_operands :
    (∀ (c : SqlExpr) (l : List BVal),
      op2E "in" (.sql c) (.lst l) = .ok (.sql (.inPred c (.lst l)))) ∧
    (∀ op, op ∈ ["==", "!=", "<=", ">=", "<", ">", "+", "-", "*", "/", "%"] →
      ∀ (c : SqlExpr) (l : List BVal),
        op2E op (.sql c) (.lst l) = .ok (.sql (.bin op (.sql c) (.lst l))) ∧
        op2E op (.lst l) (.sql c) = .ok (.sql (.bin op (.lst l) (.sql c)))) ∧
    whereClauseQ [] (.mk testTable2 [] []) (.strE "[1] == [1]") [] =
      .ok (some (.literal (.py (.bool true))), .mk testTable2 [] []) := by
  refine ⟨fun c l => rfl, ?_, rfl⟩
  intro op hop c l
  simp only [List.mem_cons, List.not_mem_nil, or_false] at hop
  rcases hop with h | h | h | h | h | h | h | h | h | h | h <;> subst h <;>
    exact ⟨rfl, rfl⟩

/-- C6 witness: the membership build for `in` and the unchecked list
operand for `==` at concrete arguments. -/
theorem C6_amended_list_operands_witness :
    op2E "in" (.sql (.col [] "key")) (.lst [.py (.int 1)]) =
      .ok (.sql (.inPred (.col [] "key") (.lst [.py (.int 1)]))) ∧
    op2E "==" (.sql (.col [] "key")) (.lst [.py (.int 1)]) =
      .ok (.sql (.bin "==" (.sql (.col [] "key")) (.lst [.py (.int 1)]))) :=
  ⟨C6_amended_list_operands.1 (.col [] "key") [.py (.int 1)],
   (C6_amended_list_operands.2.1 "==" (by decide) (.col [] "key")
     [.py (.int 1)]).1⟩

/-- C8 (counterexample): `(key + key) like 'a'` has a bound left
operand that is not a column reference (it is a compound SQL
expression), yet binding succeeds: the `_like` assert only requires a
clause element (`expr.ColumnElement`), which every SQL expression
satisfies. -/
theorem C8_counterexample_compound_lhs_like :
    whereClauseQ [] (.mk testTable2 [] []) (.strE "(key + key) like 'a'") [] =
      .ok (some (.likeP (.bin "+" (.sql (.col [] "key")) (.sql (.col [] "key")))
        (.py (.str "a"))), .mk testTable2 [] []) := rfl

/-- C8 (amended): for an expression whose top-level operator is `in`,
`like`, or `ilike`, binding fails with the operator-misuse error
exactly when the bound left-hand operand is a plain host value or a
host list — i.e. not a clause element; when the bound left operand is
any clause element (a column reference or a compound SQL expression
over columns), the corresponding relational predicate is constructed. -/
theorem C8_amended_operator_misuse :
    (∀ op, op ∈ ["in", "like", "ilike"] →
      (∀ (v : PyVal) (e2 : BVal), op2E op (.py v) e2 = .error (.operatorMisuse op)) ∧
      (∀ (l : List BVal) (e2 : BVal),
        op2E op (.lst l) e2 = .error (.operatorMisuse op))) ∧
    (∀ (c : SqlExpr) (e2 : BVal), op2E "like" (.sql c) e2 = .ok (.sql (.likeP c e2))) ∧
    (∀ (c : SqlExpr) (e2 : BVal), op2E "ilike" (.sql c) e2 = .ok (.sql (.ilikeP c e2))) ∧
    (∀ (c : SqlExpr) (l : List BVal),
      op2E "in" (.sql c) (.lst l) = .ok (.sql (.inPred c (.lst l)))) ∧
    (∀ (cat : List STable) (values : List (String × PyVal)) (n : JoinNode)
        (x y : Ast) (op : String), op ∈ ["in", "like", "ilike"] →
      ∀ (pv : PyVal) (n1 : JoinNode) (v2 : BVal) (n2 : JoinNode),
        walkA cat values n x = .ok (.py pv, n1) →
        walkA cat values n1 y = .ok (v2, n2) →
        walkA cat values n (.op2 op x y) = .error (.operatorMisuse op)) := by
  have hmis : ∀ op, op ∈ (["in", "like", "ilike"] : List String) →
      (∀ (v : PyVal) (e2 : BVal), op2E op (.py v) e2 = .error (.operatorMisuse op)) ∧
      (∀ (l : List BVal) (e2 : BVal),
        op2E op (.lst l) e2 = .error (.operatorMisuse op)) := by
    intro op hop
    simp only [List.mem_cons, List.not_mem_nil, or_false] at hop
    rcases hop with h | h | h <;> subst h <;>
      exact ⟨fun v e2 => rfl, fun l e2 => rfl⟩
  refine ⟨hmis, fun c e2 => rfl, fun c e2 => rfl, fun c l => rfl, ?_⟩
  intro cat values n x y op hop pv n1 v2 n2 hx hy
  simp only [walkA, hx, hy, (hmis op hop).1 pv v2]

/-- C8 witness: `5 like 'a'` fails with operator misuse; the amended
success side at a concrete column and pattern. -/
theorem C8_amended_operator_misuse_witness :
    walkA [] [] (.mk testTable2 [] [])
      (.op2 "like" (.literal (.int 5)) (.literal (.str "a"))) =
      .error (.operatorMisuse "like") ∧
    op2E "like" (.sql (.col [] "key")) (.py (.str "a")) =
      .ok (.sql (.likeP (.col [] "key") (.py (.str "a")))) :=
  ⟨C8_amended_operator_misuse.2.2.2.2 [] [] (.mk testTable2 [] [])
      (.literal (.int 5)) (.literal (.str "a")) "like" (by decide)
      (.int 5) (.mk testTable2 [] []) (.py (.str "a")) (.mk testTable2 [] [])
      rfl rfl,
   C8_amended_operator_misuse.2.1 (.col [] "key") (.py (.str "a"))⟩

/-- `TableManager._expression` on FQL text always produces the
`table.id IN (SELECT table.id FROM <join tree> WHERE <predicate>)`
shape. -/
theorem tmExpression_pair_shape (cat : List STable) (t : STable) (s : String)
    (vals : List (String × PyVal)) (w : SqlExpr)
    (h : tmExpression cat t (.pairE s vals) = .ok w) :
    ∃ (cond : SqlExpr) (root' : JoinNode),
      whereClauseQ cat (.mk t [] []) (.strE s) vals = .ok (some cond, root') ∧
      w = .inSub (.col [] "id") (.mk [.col [] "id"] (fromClause root') cond) := by
  simp only [tmExpression, convertExpression] at h
  by_cases hid : (STable.findCol t "id").isSome
  · simp only [qbhInit, hid, if_true] at h
    cases hw : whereClauseQ cat (.mk t [] []) (.strE s) vals with
    | error e => rw [hw] at h; cases h
    | ok p =>
      rw [hw] at h
      cases p with
      | mk o root' =>
        cases o with
        | none => cases h
        | some cond =>
          exact ⟨cond, root', rfl, by cases h; rfl⟩
  · simp only [qbhInit, hid, if_false] at h
    cases h

/-- C7: for update and delete through an FQL expression, the WHERE
clause of the mutating statement is always
`table.id IN (SELECT table.id FROM <join tree> WHERE <predicate>)` —
the join tree and bound predicate live only inside the subselect — and
when the expression is null/absent the WHERE condition is the literal
TRUE. -/
theorem C7_update_delete_where_shape :
    (∀ (cat : List STable) (t : STable) (s : String)
        (vals values : List (String × PyVal)) (stmt : UpdateStmt),
      buildUpdate cat t (.pairE s vals) values = .ok stmt →
      ∃ (cond : SqlExpr) (root' : JoinNode),
        whereClauseQ cat (.mk t [] []) (.strE s) vals = .ok (some cond, root') ∧
        stmt.cond = .inSub (.col [] "id")
          (.mk [.col [] "id"] (fromClause root') cond)) ∧
    (∀ (cat : List STable) (t : STable) (s : String) (stmt : DeleteStmt),
      buildDelete cat t (.strE s) = .ok stmt →
      ∃ (cond : SqlExpr) (root' : JoinNode),
        whereClauseQ cat (.mk t [] []) (.strE s) [] = .ok (some cond, root') ∧
        stmt.cond = .inSub (.col [] "id")
          (.mk [.col [] "id"] (fromClause root') cond)) ∧
    (∀ (cat : List STable) (t : STable) (values : List (String × PyVal))
        (stmt : UpdateStmt),
      buildUpdate cat t .noneE values = .ok stmt →
      stmt.cond = .literal (.py (.bool true))) ∧
    (∀ (cat : List STable) (t : STable) (stmt : DeleteStmt),
      buildDelete cat t .noneE = .ok stmt →
      stmt.cond = .literal (.py (.bool true))) := by
  refine ⟨?_, ?_, ?_, ?_⟩
  · intro cat t s vals values stmt h
    simp only [buildUpdate] at h
    cases hf : values.find? (fun p => (STable.findCol t p.1).isNone) with
    | some p => rw [hf] at h; cases h
    | none =>
      rw [hf] at h
      cases hexp : tmExpression cat t (.pairE s vals) with
      | error e => rw [hexp] at h; cases h
      | ok w =>
        rw [hexp] at h
        rcases tmExpression_pair_shape cat t s vals w hexp with ⟨cond, root', hw, hshape⟩
        exact ⟨cond, root', hw, by cases h; exact hshape⟩
  · intro cat t s stmt h
    simp only [buildDelete] at h
    cases hexp : tmExpression cat t (.strE s) with
    | error e => rw [hexp] at h; cases h
    | ok w =>
      rw [hexp] at h
      have hexp' : tmExpression cat t (.pairE s []) = .ok w := hexp
      rcases tmExpression_pair_shape cat t s [] w hexp' with ⟨cond, root', hw, hshape⟩
      exact ⟨cond, root', hw, by cases h; exact hshape⟩
  · intro cat t values stmt h
    simp only [buildUpdate] at h
    cases hf : values.find? (fun p => (STable.findCol t p.1).isNone) with
    | some p => rw [hf] at h; cases h
    | none =>
      rw [hf] at h
      simp only [tmExpression, convertExpression] at h
      cases h
      rfl
  · intro cat t stmt h
    simp only [buildDelete, tmExpression, convertExpression] at h
    cases h
    rfl

/-- C7 witness: the shapes at concrete inputs — an FQL string on the
test table, and the absent expression. -/
theorem C7_update_delete_where_shape_witness :
    (∃ (cond : SqlExpr) (root' : JoinNode),
      whereClauseQ testCat (.mk testTable2 [] []) (.strE "key == 'a'") [] =
        .ok (some cond, root') ∧
      (.inSub (.col [] "id")
        (.mk [.col [] "id"] (fromClause root') cond) : SqlExpr) =
        .inSub (.col [] "id") (.mk [.col [] "id"] (fromClause root') cond)) ∧
    (∀ stmt : UpdateStmt,
      buildUpdate testCat testTable2 .noneE [] = .ok stmt →
      stmt.cond = .literal (.py (.bool true))) := by
  constructor
  · rcases C7_update_delete_where_shape.1 testCat testTable2 "key == 'a'" [] []
      ⟨"test_table2",
        .inSub (.col [] "id") (.mk [.col [] "id"] (.base "test_table2")
          (.bin "==" (.sql (.col [] "key")) (.py (.str "a")))), []⟩ rfl with
      ⟨cond, root', hw, _⟩
    exact ⟨cond, root', hw, rfl⟩
  · exact fun stmt h =>
      C7_update_delete_where_shape.2.2.1 testCat testTable2 [] stmt h

/-- C9: join emission is deterministic.  The FROM clause emitted by
`_walk_tables` is invariant under any permutation of the (distinct-key)
`fk_columns` association entries, because children are visited in
sorted key order; and the emitted clause is exactly a left fold of
`LEFT OUTER JOIN child ON child.id == parent.fk_column` steps over the
children in sorted key order, each child expanded recursively. -/
theorem C9_join_emission_deterministic :
    (∀ (t : STable) (a : List String) (l1 l2 : List (String × JoinNode))
        (cur : FromClause),
      l1.Perm l2 → (l1.map Prod.fst).Nodup →
      walkTables cur (.mk t a l1) = walkTables cur (.mk t a l2)) ∧
    (∀ (cur : FromClause) (t : STable) (a : List String)
        (fks : List (String × JoinNode)),
      walkTables cur (.mk t a fks) =
        (sortPairs fks).foldl
          (fun c p =>
            walkTables
              (.outerjoin c p.2.aliasPath p.2.table.name
                ⟨p.2.aliasPath, "id", a, p.1⟩)
              p.2)
          cur) := by
  constructor
  · intro t a l1 l2 cur hperm hnd
    rw [walkTables_sorted_fold, walkTables_sorted_fold,
      sortPairs_eq_of_perm hperm hnd]
  · exact walkTables_sorted_fold

/-- C9 witness: two association orders of the same two children emit
the same FROM clause. -/
theorem C9_join_emission_deterministic_witness :
    walkTables (.base "test_table3")
      (.mk testTable3 []
        [("b", .mk testTable2 ["b"] []), ("a", .mk testTable2 ["a"] [])]) =
    walkTables (.base "test_table3")
      (.mk testTable3 []
        [("a", .mk testTable2 ["a"] []), ("b", .mk testTable2 ["b"] [])]) :=
  C9_join_emission_deterministic.1 testTable3 []
    [("b", .mk testTable2 ["b"] []), ("a", .mk testTable2 ["a"] [])]
    [("a", .mk testTable2 ["a"] []), ("b", .mk testTable2 ["b"] [])]
    (.base "test_table3")
    (List.Perm.swap ("a", JoinNode.mk testTable2 ["a"] [])
      ("b", JoinNode.mk testTable2 ["b"] []) [])
    (by decide)

/-- C5: binding a dotted path `v.r1.…` (length ≥ 2) at a join node.
With no child installed for `v`, binding proceeds only when column `v`
exists, carries exactly one foreign-key edge, that edge targets the
column literally named `id` of a catalogued table `T2`, and the next
segment is not `id`; it then installs a child node aliasing `T2` and
recurses into it with the remaining path.  The failures, in source
check order: `UnknownColumn` when `v` is not a column;
`NotAForeignKey` when `v` has no foreign-key edge;
`AmbiguousForeignKey` when it has more than one; the
target-must-be-`id` assertion; and `ForbiddenIdThroughFk` when the
next segment is `id`.  When a child for `v` is already installed, the
walk goes straight to the `id`-segment check and the recursion.  The
final conjunct is the "succeeds only if" direction on a fresh node. -/
theorem C5_fk_navigation (cat : List STable) (t : STable) (a : List String)
    (fks : List (String × JoinNode)) (v r1 : String) (rest : List String) :
    (STable.findCol t v = none →
      columnWalk cat (.mk t a fks) (v :: r1 :: rest) =
        .error (.unknownColumn t.name v)) ∧
    (∀ col, STable.findCol t v = some col →
      fks.find? (fun p => p.1 == v) = none → col.fkeys = [] →
      columnWalk cat (.mk t a fks) (v :: r1 :: rest) =
        .error (.notAForeignKey v)) ∧
    (∀ col, STable.findCol t v = some col →
      fks.find? (fun p => p.1 == v) = none → 2 ≤ col.fkeys.length →
      columnWalk cat (.mk t a fks) (v :: r1 :: rest) =
        .error (.ambiguousForeignKey v)) ∧
    (∀ col fk, STable.findCol t v = some col →
      fks.find? (fun p => p.1 == v) = none → col.fkeys = [fk] →
      cat.find? (fun tb => tb.name == fk.targetTable) ≠ none →
      fk.targetCol ≠ "id" →
      columnWalk cat (.mk t a fks) (v :: r1 :: rest) =
        .error (.targetNotId v)) ∧
    (∀ col fk t2, STable.findCol t v = some col →
      fks.find? (fun p => p.1 == v) = none → col.fkeys = [fk] →
      cat.find? (fun tb => tb.name == fk.targetTable) = some t2 →
      fk.targetCol = "id" → r1 = "id" →
      columnWalk cat (.mk t a fks) (v :: r1 :: rest) =
        .error .forbiddenIdThroughFk) ∧
    (∀ col fk t2, STable.findCol t v = some col →
      fks.find? (fun p => p.1 == v) = none → col.fkeys = [fk] →
      cat.find? (fun tb => tb.name == fk.targetTable) = some t2 →
      fk.targetCol = "id" → r1 ≠ "id" →
      columnWalk cat (.mk t a fks) (v :: r1 :: rest) =
        (columnWalk cat (.mk t2 (a ++ [v]) []) (r1 :: rest)).map
          (fun p => (p.1, .mk t a (fks ++ [(v, p.2)])))) ∧
    (∀ col q, STable.findCol t v = some col →
      fks.find? (fun p => p.1 == v) = some q →
      (r1 = "id" →
        columnWalk cat (.mk t a fks) (v :: r1 :: rest) =
          .error .forbiddenIdThroughFk) ∧
      (r1 ≠ "id" →
        columnWalk cat (.mk t a fks) (v :: r1 :: rest) =
          (columnWalk cat q.2 (r1 :: rest)).map
            (fun p => (p.1,
              .mk t a (fks.map (fun pp => if pp.1 = v then (v, p.2) else pp)))))) ∧
    (∀ out, columnWalk cat (.mk t a []) (v :: r1 :: rest) = .ok out →
      ∃ col fk t2, STable.findCol t v = some col ∧ col.fkeys = [fk] ∧
        fk.targetCol = "id" ∧
        cat.find? (fun tb => tb.name == fk.targetTable) = some t2 ∧
        r1 ≠ "id") := by
  refine ⟨?_, ?_, ?_, ?_, ?_, ?_, ?_, ?_⟩
  · intro h
    simp [columnWalk, h]
  · intro col hcol hfind hfk
    simp [columnWalk, hcol, hfind, hfk]
  · intro col hcol hfind hfk
    have h0 : col.fkeys.length ≠ 0 := by omega
    simp only [columnWalk, hcol, hfind]
    rw [if_neg h0, if_pos hfk]
  · intro col fk hcol hfind hfk hcat hid
    simp only [columnWalk, hcol, hfind, hfk]
    rw [if_neg (by simp), if_neg (by simp)]
    cases hc : cat.find? (fun tb => tb.name == fk.targetTable) with
    | none => exact absurd hc hcat
    | some t2 => simp [hid]
  · intro col fk t2 hcol hfind hfk hcat hid hr1
    simp only [columnWalk, hcol, hfind, hfk, hcat]
    rw [if_neg (by simp), if_neg (by simp)]
    simp [hid, hr1]
  · intro col fk t2 hcol hfind hfk hcat hid hr1
    conv_lhs => rw [columnWalk]
    simp only [hcol, hfind, hfk, hcat]
    rw [if_neg (by simp), if_neg (by simp)]
    simp only [hid, ne_eq, not_true_eq_false, if_false, if_neg hr1]
    cases columnWalk cat (.mk t2 (a ++ [v]) []) (r1 :: rest) with
    | ok p =>
      obtain ⟨c, child2⟩ := p
      rfl
    | error e => rfl
  · intro col q hcol hfind
    obtain ⟨k, child⟩ := q
    constructor
    · intro hr1
      conv_lhs => rw [columnWalk]
      simp [hcol, hfind, hr1]
    · intro hr1
      conv_lhs => rw [columnWalk]
      simp only [hcol, hfind]
      rw [if_neg hr1]
      cases columnWalk cat child (r1 :: rest) with
      | ok p =>
        obtain ⟨c, child2⟩ := p
        rfl
      | error e => rfl
  · intro out h
    simp only [columnWalk] at h
    cases hcol : STable.findCol t v with
    | none => rw [hcol] at h; cases h
    | some col =>
      rw [hcol] at h
      simp only [List.find?_nil] at h
      by_cases h0 : col.fkeys.length = 0
      · rw [if_pos h0] at h; cases h
      · rw [if_neg h0] at h
        by_cases h2 : 2 ≤ col.fkeys.length
        · rw [if_pos h2] at h; cases h
        · rw [if_neg h2] at h
          have h1 : col.fkeys.length = 1 := by omega
          cases hfk : col.fkeys with
          | nil => rw [hfk] at h1; cases h1
          | cons fk tl =>
            cases tl with
            | cons x xs => rw [hfk] at h1; simp at h1
            | nil =>
              rw [hfk] at h
              dsimp only at h
              cases hc : cat.find? (fun tb => tb.name == fk.targetTable) with
              | none => rw [hc] at h; cases h
              | some t2 =>
                rw [hc] at h
                dsimp only at h
                by_cases hid : fk.targetCol = "id"
                · rw [if_neg (by simp [hid])] at h
                  by_cases hr1 : r1 = "id"
                  · rw [if_pos hr1] at h; cases h
                  · rw [if_neg hr1] at h
                    exact ⟨col, fk, t2, rfl, hfk, hid, hc, hr1⟩
                · rw [if_pos (by simp [hid])] at h; cases h

/-- C5 witness: each branch at the concrete test schema (`test_table3`
with foreign key `table2` to `test_table2.id`, plus a fixture table
with an ambiguous and a non-`id`-targeting foreign key). -/
theorem C5_fk_navigation_witness :
    columnWalk testCat (.mk testTable3 [] []) ["zzz", "x"] =
      .error (.unknownColumn "test_table3" "zzz") ∧
    columnWalk testCat (.mk testTable3 [] []) ["key", "x"] =
      .error (.notAForeignKey "key") ∧
    columnWalk testCat (.mk testTable3 [] []) ["table2", "id"] =
      .error .forbiddenIdThroughFk ∧
    columnWalk testCat (.mk testTable3 [] []) ["table2", "key"] =
      (columnWalk testCat (.mk testTable2 ["table2"] []) ["key"]).map
        (fun p => (p.1, .mk testTable3 []
          ([] ++ [("table2", p.2)]))) ∧
    (∃ col fk t2, STable.findCol testTable3 "table2" = some col ∧
      col.fkeys = [fk] ∧ fk.targetCol = "id" ∧
      testCat.find? (fun tb => tb.name == fk.targetTable) = some t2 ∧
      "key" ≠ "id") :=
  ⟨(C5_fk_navigation testCat testTable3 [] [] "zzz" "x" []).1 rfl,
   (C5_fk_navigation testCat testTable3 [] [] "key" "x" []).2.1
     ⟨"key", []⟩ rfl rfl rfl,
   (C5_fk_navigation testCat testTable3 [] [] "table2" "id" []).2.2.2.2.1
     ⟨"table2", [⟨"test_table2", "id"⟩]⟩ ⟨"test_table2", "id"⟩ testTable2
     rfl rfl rfl rfl rfl rfl,
   (C5_fk_navigation testCat testTable3 [] [] "table2" "key" []).2.2.2.2.2.1
     ⟨"table2", [⟨"test_table2", "id"⟩]⟩ ⟨"test_table2", "id"⟩ testTable2
     rfl rfl rfl rfl rfl (by decide),
   (C5_fk_navigation testCat testTable3 [] [] "table2" "key" []).2.2.2.2.2.2.2
     (.col ["table2"] "key",
       .mk testTable3 [] [("table2", .mk testTable2 ["table2"] [])]) rfl⟩

/-! ### Supporting lemmas for the `read_many_by_id` contract -/

theorem findCol_isSome_of_mem {t : STable} {n : String}
    (h : n ∈ t.colNames) : (STable.findCol t n).isSome := by
  rcases List.mem_map.mp h with ⟨c, hc, hn⟩
  simp only [STable.findCol]
  exact List.find?_isSome.mpr ⟨c, hc, by simp [hn]⟩

theorem mem_colNames_of_findCol {t : STable} {n : String}
    (h : (STable.findCol t n).isSome) : n ∈ t.colNames := by
  rcases Option.isSome_iff_exists.mp h with ⟨c, hc⟩
  simp only [STable.findCol] at hc
  have hmem := List.mem_of_find?_eq_some hc
  have hname := List.find?_some hc
  exact List.mem_map.mpr ⟨c, hmem, eq_of_beq hname⟩

theorem readRows_idIn (t : STable) (rows : List DRow) (ids : List Int)
    (flds : List String) (hflds : ∀ f ∈ flds, (STable.findCol t f).isSome) :
    readRows t rows (some (idIn ids)) flds =
      .ok ((rows.filter (rowIdMatches ids)).map
        (fun r => flds.map (fun f => (f, rowGet r f)))) := by
  have hfind : flds.find? (fun f => (STable.findCol t f).isNone) = none := by
    rw [List.find?_eq_none]
    intro f hf
    rcases Option.isSome_iff_exists.mp (hflds f hf) with ⟨c, hc⟩
    simp [hc]
  simp only [readRows, hfind, matchRows_idIn]
  rw [filter_snd_map_pair, List.map_map]
  rfl

/-- Looking a key up in the projection of a row. -/
theorem rowGet_proj (r : DRow) (k : String) :
    ∀ flds : List String,
      rowGet (flds.map (fun f => (f, rowGet r f))) k =
        if k ∈ flds then rowGet r k else .null := by
  intro flds
  induction flds with
  | nil => simp [rowGet]
  | cons f rest ih =>
    by_cases h : f = k
    · subst h
      simp [rowGet, List.find?]
    · have hbe : (f == k) = false := beq_eq_false_iff_ne.mpr h
      have hmem : (k ∈ f :: rest) ↔ (k ∈ rest) := by
        simp [List.mem_cons, Ne.symm h]
      simp only [List.map_cons, rowGet, List.find?, hbe] at ih ⊢
      rw [ih]
      by_cases hk : k ∈ rest
      · rw [if_pos hk, if_pos (hmem.mpr hk)]
      · rw [if_neg hk, if_neg (fun hx => hk (hmem.mp hx))]

/-- With pairwise distinct keys, the last-wins dictionary lookup agrees
with the first match. -/
theorem dictLookup_eq_find (k : PyVal) :
    ∀ l : List (PyVal × DRow), (l.map Prod.fst).Nodup →
      dictLookup l k = (l.find? (fun p => p.1 == k)).map (fun p => p.2) := by
  intro l
  induction l with
  | nil => intro _; simp [dictLookup]
  | cons p rest ih =>
    intro hnd
    rw [List.map_cons, List.nodup_cons] at hnd
    obtain ⟨hpk, hrest⟩ := hnd
    by_cases h : (p.1 == k) = true
    · have hk : p.1 = k := eq_of_beq h
      have hnone : rest.reverse.find? (fun q => q.1 == k) = none := by
        rw [List.find?_eq_none]
        intro q hq
        have : q.1 ∈ rest.map Prod.fst :=
          List.mem_map.mpr ⟨q, List.mem_reverse.mp hq, rfl⟩
        intro hqk
        exact hpk (by rw [hk, ← eq_of_beq hqk]; exact this)
      simp [dictLookup, List.reverse_cons, List.find?_append, hnone,
        List.find?, h]
    · have hb : (p.1 == k) = false := by
        cases hx : (p.1 == k) with
        | true => exact absurd hx h
        | false => rfl
      have hthis := ih hrest
      simp only [dictLookup] at hthis ⊢
      rw [List.reverse_cons, List.find?_append]
      have h1 : List.find? (fun q => q.1 == k) [p] = none := by
        simp [List.find?, hb]
      have h2 : List.find? (fun q => q.1 == k) (p :: rest) =
          List.find? (fun q => q.1 == k) rest := by
        simp [List.find?, hb]
      rw [h1, h2]
      cases hr : List.find? (fun q => q.1 == k) rest.reverse with
      | some q =>
        rw [hr] at hthis
        simpa using hthis
      | none =>
        rw [hr] at hthis
        simpa using hthis

/-- The resolution loop succeeds elementwise. -/
theorem lookupAll_map (index : List (PyVal × DRow)) (g : Int → DRow) :
    ∀ ids : List Int, (∀ i ∈ ids, dictLookup index (.int i) = some (g i)) →
      lookupAll index ids = some (ids.map g) := by
  intro ids
  induction ids with
  | nil => intro _; rfl
  | cons i rest ih =>
    intro h
    have hi := h i (by simp)
    have hrest := ih (fun j hj => h j (by simp [hj]))
    simp [lookupAll, hi, hrest]

/-- The resolution loop fails when any id is missing. -/
theorem lookupAll_none (index : List (PyVal × DRow)) :
    ∀ ids : List Int, (∃ i ∈ ids, dictLookup index (.int i) = none) →
      lookupAll index ids = none := by
  intro ids
  induction ids with
  | nil => intro h; rcases h with ⟨i, hi, _⟩; cases hi
  | cons j rest ih =>
    intro h
    rcases h with ⟨i, hi, hnone⟩
    rcases List.mem_cons.mp hi with hj | hj
    · subst hj
      simp [lookupAll, hnone]
    · have := ih ⟨i, hj, hnone⟩
      simp only [lookupAll, this]
      cases dictLookup index (.int j) <;> rfl

/-- The stored row holding a given id (the unique one, when row ids are
pairwise distinct). -/
def rowFor (rows : List DRow) (i : Int) : DRow :=
  (rows.find? (fun r => rowGet r "id" == PyVal.int i)).getD []

/-- `find?` commutes with a filter whose predicate is implied by the
search predicate. -/
theorem find?_filter {α : Type} (p f : α → Bool) :
    ∀ l : List α, (∀ x ∈ l, p x = true → f x = true) →
      (l.filter f).find? p = l.find? p := by
  intro l
  induction l with
  | nil => intro _; rfl
  | cons x rest ih =>
    intro h
    have hrest := ih (fun y hy => h y (by simp [hy]))
    by_cases hp : p x = true
    · have hf : f x = true := h x (by simp) hp
      simp [List.filter_cons, hf, List.find?, hp]
    · have hp' : p x = false := by
        cases hx : p x with
        | true => exact absurd hx hp
        | false => rfl
      by_cases hf : f x = true
      · simp [List.filter_cons, hf, List.find?, hp', hrest]
      · have hf' : f x = false := by
          cases hx : f x with
          | true => exact absurd hx hf
          | false => rfl
        simp [List.filter_cons, hf', List.find?, hp', hrest]

/-- The index built by `read_many_by_id` over the projected result
rows, with its key recovered from the underlying row. -/
theorem index_shape (rows : List DRow) (ids : List Int)
    (flds : List String) (hidmem : "id" ∈ flds) :
    ((rows.filter (rowIdMatches ids)).map
        (fun r => flds.map (fun f => (f, rowGet r f)))).map
      (fun x => (rowGet x "id", x)) =
    (rows.filter (rowIdMatches ids)).map
      (fun r => (rowGet r "id", flds.map (fun f => (f, rowGet r f)))) := by
  rw [List.map_map]
  apply List.map_congr_left
  intro r _
  simp only [Function.comp]
  rw [rowGet_proj, if_pos hidmem]

theorem index_keys_nodup (rows : List DRow) (ids : List Int)
    (flds : List String)
    (hnodup : (rows.map (fun r => rowGet r "id")).Nodup) :
    (((rows.filter (rowIdMatches ids)).map
        (fun r => (rowGet r "id", flds.map (fun f => (f, rowGet r f))))).map
      Prod.fst).Nodup := by
  rw [List.map_map]
  have : (List.map (Prod.fst ∘ fun r =>
      (rowGet r "id", flds.map (fun f => (f, rowGet r f))))
      (rows.filter (rowIdMatches ids))) =
      (rows.filter (rowIdMatches ids)).map (fun r => rowGet r "id") := rfl
  rw [this]
  exact hnodup.sublist ((List.filter_sublist rows).map _)

/-- Index hit: a requested id held by some stored row resolves to the
projection of that row. -/
theorem dictLookup_index_hit (rows : List DRow) (ids : List Int)
    (flds : List String) (hidmem : "id" ∈ flds)
    (hnodup : (rows.map (fun r => rowGet r "id")).Nodup)
    (i : Int) (hi : i ∈ ids) (hex : ∃ r ∈ rows, rowGet r "id" = .int i) :
    dictLookup
      (((rows.filter (rowIdMatches ids)).map
          (fun r => flds.map (fun f => (f, rowGet r f)))).map
        (fun x => (rowGet x "id", x))) (.int i) =
      some (flds.map (fun f => (f, rowGet (rowFor rows i) f))) := by
  rw [index_shape rows ids flds hidmem,
    dictLookup_eq_find _ _ (index_keys_nodup rows ids flds hnodup),
    List.find?_map]
  have hq : ((fun p : PyVal × DRow => p.1 == PyVal.int i) ∘ fun r =>
      (rowGet r "id", flds.map (fun f => (f, rowGet r f)))) =
      (fun r => rowGet r "id" == PyVal.int i) := rfl
  rw [hq, find?_filter]
  · rcases hex with ⟨r, hr, hrid⟩
    have hsome : (rows.find? (fun r => rowGet r "id" == PyVal.int i)).isSome :=
      List.find?_isSome.mpr ⟨r, hr, by rw [hrid]; simp⟩
    rcases Option.isSome_iff_exists.mp hsome with ⟨r0, hr0⟩
    rw [hr0]
    simp [rowFor, hr0]
  · intro x _ hx
    have hxid : rowGet x "id" = PyVal.int i := eq_of_beq hx
    exact List.any_eq_true.mpr ⟨i, hi, by rw [hxid]; simp [pvEq, pvToInt]⟩

/-- Index miss: a requested id held by no stored row resolves to
nothing. -/
theorem dictLookup_index_miss (rows : List DRow) (ids : List Int)
    (flds : List String) (hidmem : "id" ∈ flds)
    (hnodup : (rows.map (fun r => rowGet r "id")).Nodup)
    (i : Int) (hmiss : ∀ r ∈ rows, rowGet r "id" ≠ PyVal.int i) :
    dictLookup
      (((rows.filter (rowIdMatches ids)).map
          (fun r => flds.map (fun f => (f, rowGet r f)))).map
        (fun x => (rowGet x "id", x))) (.int i) = none := by
  rw [index_shape rows ids flds hidmem,
    dictLookup_eq_find _ _ (index_keys_nodup rows ids flds hnodup)]
  apply Option.map_eq_none'.mpr
  rw [List.find?_eq_none]
  intro p hp
  rcases List.mem_map.mp hp with ⟨r, hr, hpr⟩
  have hrrows : r ∈ rows := (List.filter_sublist rows).subset hr
  intro hbeq
  exact hmiss r hrrows (by rw [← hpr] at hbeq; exact eq_of_beq hbeq)

/-- Stripping the internally fetched `id` from a projected row. -/
theorem strip_proj (fs : List String) (hid : "id" ∉ fs) (r : DRow) :
    List.filter (fun p => !(p.1 == "id"))
      ((fs ++ ["id"]).map (fun f => (f, rowGet r f))) =
      fs.map (fun f => (f, rowGet r f)) := by
  rw [List.filter_map]
  have hcomp : ((fs ++ ["id"]).filter
      ((fun p : String × PyVal => !(p.1 == "id")) ∘ fun f => (f, rowGet r f))) =
      (fs ++ ["id"]).filter (fun f => !(f == "id")) := rfl
  rw [hcomp, List.filter_append]
  have h1 : fs.filter (fun f => !(f == "id")) = fs := by
    rw [List.filter_eq_self]
    intro f hf
    have hne : f ≠ "id" := fun h => hid (h ▸ hf)
    simp [hne]
  have h2 : (["id"].filter (fun f => !(f == "id"))) = [] := by simp
  rw [h1, h2, List.append_nil]

/-- C3 (amended): `read_many_by_id(ids, fields)` returns one row per
requested id in exactly the order of the input id list (each the
projection of the unique stored row holding that id); any requested id
with no matching row raises the `NotFound` persistence error; and when
`fields` is given without `id`, the id column is fetched internally for
matching and stripped from every returned row — provided, in that
stripping case, that the requested ids are pairwise distinct (a
duplicated id makes the in-place `del el["id"]` loop hit the same row
dictionary twice and raise `KeyError`; see the counterexample). -/
theorem C3_read_many_by_id (t : STable) (rows : List DRow) (ids : List Int)
    (fields : Option (List String))
    (hfs : ∀ f ∈ fields.getD t.colNames, (STable.findCol t f).isSome)
    (hidcol : (STable.findCol t "id").isSome)
    (_hrowsid : ∀ r ∈ rows, ∃ m : Int, rowGet r "id" = .int m)
    (hnodup : (rows.map (fun r => rowGet r "id")).Nodup) :
    ((∀ i ∈ ids, ∃ r ∈ rows, rowGet r "id" = .int i) →
      ("id" ∉ fields.getD ["id"] → ids.Nodup) →
      readManyById t rows ids fields =
        .ok (ids.map (fun i => (fields.getD t.colNames).map
          (fun f => (f, rowGet (rowFor rows i) f))))) ∧
    ((∃ i ∈ ids, ∀ r ∈ rows, rowGet r "id" ≠ PyVal.int i) →
      readManyById t rows ids fields = .error (.notFound t.name)) := by
  cases fields with
  | none =>
    have hflds : ∀ f ∈ t.colNames, (STable.findCol t f).isSome := hfs
    have hidmem : "id" ∈ t.colNames := mem_colNames_of_findCol hidcol
    constructor
    · intro hfound _
      simp only [readManyById, readRows_idIn t rows ids t.colNames hflds]
      rw [lookupAll_map _ (fun i => t.colNames.map
        (fun f => (f, rowGet (rowFor rows i) f))) ids
        (fun i hi => dictLookup_index_hit rows ids t.colNames hidmem hnodup i hi
          (hfound i hi))]
      rfl
    · intro hmiss
      rcases hmiss with ⟨i, hi, hm⟩
      simp only [readManyById, readRows_idIn t rows ids t.colNames hflds]
      rw [lookupAll_none _ ids
        ⟨i, hi, dictLookup_index_miss rows ids t.colNames hidmem hnodup i hm⟩]
  | some fs =>
    by_cases hin : "id" ∈ fs
    · have hflds : ∀ f ∈ fs, (STable.findCol t f).isSome := hfs
      have hdec : decide ("id" ∈ fs) = true := decide_eq_true hin
      constructor
      · intro hfound _
        simp only [readManyById, hdec, if_true,
          readRows_idIn t rows ids fs hflds]
        rw [lookupAll_map _ (fun i => fs.map
          (fun f => (f, rowGet (rowFor rows i) f))) ids
          (fun i hi => dictLookup_index_hit rows ids fs hin hnodup i hi
            (hfound i hi))]
        rfl
      · intro hmiss
        rcases hmiss with ⟨i, hi, hm⟩
        simp only [readManyById, hdec, if_true,
          readRows_idIn t rows ids fs hflds]
        rw [lookupAll_none _ ids
          ⟨i, hi, dictLookup_index_miss rows ids fs hin hnodup i hm⟩]
    · have hflds : ∀ f ∈ fs ++ ["id"], (STable.findCol t f).isSome := by
        intro f hf
        rcases List.mem_append.mp hf with hf | hf
        · exact hfs f hf
        · simp only [List.mem_singleton] at hf
          exact hf ▸ hidcol
      have hidmem : "id" ∈ fs ++ ["id"] :=
        List.mem_append.mpr (.inr (by simp))
      have hdec : decide ("id" ∈ fs) = false := decide_eq_false hin
      constructor
      · intro hfound hstrip
        have hnd : ids.Nodup := hstrip hin
        simp only [readManyById, hdec, Bool.false_eq_true, if_false,
          readRows_idIn t rows ids (fs ++ ["id"]) hflds]
        rw [lookupAll_map _ (fun i => (fs ++ ["id"]).map
          (fun f => (f, rowGet (rowFor rows i) f))) ids
          (fun i hi => dictLookup_index_hit rows ids (fs ++ ["id"]) hidmem
            hnodup i hi (hfound i hi))]
        simp only [Bool.false_eq_true, if_false, if_pos hnd, List.map_map]
        congr 1
        apply List.map_congr_left
        intro i _
        exact strip_proj fs hin (rowFor rows i)
      · intro hmiss
        rcases hmiss with ⟨i, hi, hm⟩
        simp only [readManyById, hdec, Bool.false_eq_true, if_false,
          readRows_idIn t rows ids (fs ++ ["id"]) hflds]
        rw [lookupAll_none _ ids
          ⟨i, hi, dictLookup_index_miss rows ids (fs ++ ["id"]) hidmem hnodup
            i hm⟩]

/-- C3 (counterexample): requesting the duplicated id list `[1, 1]`
with `fields = ["key"]` (no `id`), against a store that holds id 1,
does not return stripped rows: the `del el["id"]` loop deletes the key
from the same row dictionary twice and raises `KeyError`. -/
theorem C3_counterexample_duplicate_strip :
    readManyById testTable2 testRows2 [1, 1] (some ["key"]) =
      .error (.keyError "id") := rfl

/-- C3 witness: ids `[2, 1]` with `fields = ["key"]` return the two
stripped rows in exactly the requested order; the absent id 3 raises
`NotFound`. -/
theorem C3_read_many_by_id_witness :
    readManyById testTable2 testRows2 [2, 1] (some ["key"]) =
      .ok [[("key", .str "c")], [("key", .str "a")]] ∧
    readManyById testTable2 testRows2 [3] none =
      .error (.notFound "test_table2") := by
  have hrid : ∀ r ∈ testRows2, ∃ m : Int, rowGet r "id" = .int m := by
    intro r hr
    simp only [testRows2, List.mem_cons, List.not_mem_nil, or_false] at hr
    rcases hr with h | h
    · exact ⟨1, by rw [h]; rfl⟩
    · exact ⟨2, by rw [h]; rfl⟩
  constructor
  · exact (C3_read_many_by_id testTable2 testRows2 [2, 1] (some ["key"])
      (by decide) (by decide) hrid (by decide)).1
      (by
        intro i hi
        simp only [List.mem_cons, List.not_mem_nil, or_false] at hi
        rcases hi with h | h <;> subst h
        · exact ⟨[("id", .int 2), ("key", .str "c"), ("value", .str "d")],
            by simp [testRows2], rfl⟩
        · exact ⟨[("id", .int 1), ("key", .str "a"), ("value", .str "b")],
            by simp [testRows2], rfl⟩)
      (fun _ => by decide)
  · exact (C3_read_many_by_id testTable2 testRows2 [3] none
      (by decide) (by decide) hrid (by decide)).2
      ⟨3, by simp, by decide⟩

end Asgard
